import Mathlib

/-!
Verification development for the ICU decimal-number pattern engine
(`i18n/number_patternstring.cpp`): the recursive-descent pattern parser,
the pattern-to-properties translator, the properties-to-pattern serializer,
the localized-symbol converter and the affix resolver.

Pattern text is modelled as `List Char` (one element per code point; the C++
scanner also advances one code point at a time).  Affix/padding `Endpoints`
(half-open index ranges into the immutable pattern text) are materialised as
the sub-lists they denote, which is an equivalent zero-copy view.  The packed
64-bit grouping accumulator is modelled as a `Nat` reduced mod 2^64 with
explicit 16-bit two's-complement slot extraction, exactly as the C++ does.
-/

namespace NumberPatternString

/-- The single-quote code point, written via `Char.ofNat` to keep source text simple. -/
def quoteChar : Char := Char.ofNat 39

/-- The per-mille sign U+2030. -/
def permilleChar : Char := Char.ofNat 0x2030

/-- The currency sign U+00A4. -/
def currencyChar : Char := Char.ofNat 0xa4

/-- Error kinds surfaced by the parser (`UErrorCode` values set in
`number_patternstring.cpp`). -/
inductive PErr where
  | unexpectedToken
  | patternSyntaxError
  | unquotedSpecial
  | multiplePadSpecifiers
  | malformedExponentialPattern
  deriving DecidableEq, Repr

/-- Padding location (`UNumberFormatPadPosition`). -/
inductive PadPosition where
  | beforePrefix
  | afterPrefix
  | beforeSuffix
  | afterSuffix
  deriving DecidableEq, Repr

/-- Modelled from the spec: the arbitrary-precision rounding accumulator
(`DecimalQuantity`, whose source is not under `src/`).  Per the spec's design
note it is "a simple append-only decimal-digit builder tracking a
magnitude/scale"; we keep a sign-less digit sequence as a `Nat` together with
the count of fraction digits.  The represented value is `num / 10 ^ scale`. -/
structure DecQuantity where
  num : Nat := 0
  scale : Nat := 0
  deriving DecidableEq, Repr

/-- `DecimalQuantity::isZero`. -/
def DecQuantity.isZero (q : DecQuantity) : Bool := q.num == 0

/-- `DecimalQuantity::appendDigit(value, leadingZeros, appendAsInteger)`:
append a digit after the given number of suppressed leading zeros, either at
the integer position (scale unchanged) or at the next fraction position. -/
def DecQuantity.appendDigit (q : DecQuantity) (d : Nat) (leadingZeros : Nat)
    (appendAsInteger : Bool) : DecQuantity :=
  if appendAsInteger then
    { q with num := q.num * 10 ^ (leadingZeros + 1) + d }
  else
    { num := q.num * 10 ^ (leadingZeros + 1) + d, scale := q.scale + leadingZeros + 1 }

/-- One half (positive or negative) of a parsed pattern
(`ParsedSubpatternInfo` from `number_patternstring.h`, populated by the
consume functions in the .cpp file).  `groupingSizes` starts as
`0x0000ffffffff0000`: primary slot 0, secondary and tertiary slots unset
(-1), which is what the spec's scanning and error rules require. -/
structure ParsedSubpatternInfo where
  groupingSizes : Nat := 0x0000ffffffff0000
  hasPercentSign : Bool := false
  hasPerMilleSign : Bool := false
  hasCurrencySign : Bool := false
  hasMinusSign : Bool := false
  hasPlusSign : Bool := false
  integerLeadingHashSigns : Nat := 0
  integerTrailingHashSigns : Nat := 0
  integerAtSigns : Nat := 0
  integerNumerals : Nat := 0
  integerTotal : Nat := 0
  fractionHashSigns : Nat := 0
  fractionNumerals : Nat := 0
  fractionTotal : Nat := 0
  hasDecimal : Bool := false
  widthExceptAffixes : Nat := 0
  hasPadding : Bool := false
  paddingLocation : Option PadPosition := none
  paddingChars : List Char := []
  rounding : DecQuantity := {}
  exponentHasPlusSign : Bool := false
  exponentZeros : Nat := 0
  hasDecimalChars : Bool := false
  prefixChars : List Char := []
  suffixChars : List Char := []
  deriving DecidableEq, Repr

/-- Interpret the low 16 bits of `n` as a two's-complement `int16_t`. -/
def toInt16 (n : Nat) : Int :=
  let v := n % 65536
  if v < 32768 then (v : Int) else (v : Int) - 65536

/-- `static_cast<int16_t>(groupingSizes & 0xffff)`. -/
def groupingSlot1 (g : Nat) : Int := toInt16 g

/-- `static_cast<int16_t>((groupingSizes >> 16) & 0xffff)`. -/
def groupingSlot2 (g : Nat) : Int := toInt16 (g / 65536)

/-- `static_cast<int16_t>((groupingSizes >> 32) & 0xffff)`. -/
def groupingSlot3 (g : Nat) : Int := toInt16 (g / 65536 / 65536)

/-- A parsed pattern (`ParsedPatternInfo`): the original text, the two
subpattern halves and the negative-subpattern flag. -/
structure ParsedPatternInfo where
  pattern : List Char := []
  positive : ParsedSubpatternInfo := {}
  negative : ParsedSubpatternInfo := {}
  fHasNegativeSubpattern : Bool := false
  deriving DecidableEq, Repr

/-- Characters that cannot appear unquoted in an affix literal
(the break cases of `consumeAffix`). -/
def isBreakChar (c : Char) : Bool :=
  c == '#' || c == '@' || c == ';' || c == '*' || c == '.' || c == ',' ||
    ('0' ≤ c && c ≤ '9')

/-- The flag updates of `consumeAffix`'s switch: record which special symbols
start an (unquoted) literal of the affix. -/
def affixFlag (sub : ParsedSubpatternInfo) (c : Char) : ParsedSubpatternInfo :=
  if c = '%' then { sub with hasPercentSign := true }
  else if c = permilleChar then { sub with hasPerMilleSign := true }
  else if c = currencyChar then { sub with hasCurrencySign := true }
  else if c = '-' then { sub with hasMinusSign := true }
  else if c = '+' then { sub with hasPlusSign := true }
  else sub

/-- The body of a quoted literal: consume up to and including the closing
quote (the loop inside `consumeLiteral`); an unterminated quote is a fatal
`U_PATTERN_SYNTAX_ERROR`.  Returns the consumed characters (closing quote
included) and the rest. -/
def consumeQuoted : List Char → Except PErr (List Char × List Char)
  | [] => .error .patternSyntaxError
  | c :: rest =>
    if c = quoteChar then .ok ([quoteChar], rest)
    else
      match consumeQuoted rest with
      | .error e => .error e
      | .ok (mid, r) => .ok (c :: mid, r)

/-- `ParsedPatternInfo::consumeLiteral`: one quoted literal or one unquoted
character; `U_PATTERN_SYNTAX_ERROR` at end of input. -/
def consumeLiteral : List Char → Except PErr (List Char × List Char)
  | [] => .error .patternSyntaxError
  | c :: rest =>
    if c = quoteChar then
      match consumeQuoted rest with
      | .error e => .error e
      | .ok (mid, r) => .ok (quoteChar :: mid, r)
    else .ok ([c], rest)

/-- `ParsedPatternInfo::consumeAffix`, written as a character automaton: the
Boolean records whether the scan is inside a quoted literal.  Outside quotes
a break character terminates the literal run; special symbols at a literal
start set the corresponding flags (exactly the switch in the C++ loop, which
peeks before calling `consumeLiteral`).  Returns the updated subpattern, the
consumed affix slice (the `Endpoints` contents) and the rest. -/
def consumeAffixLoop : List Char → Bool → ParsedSubpatternInfo →
    Except PErr (ParsedSubpatternInfo × List Char × List Char)
  | [], false, sub => .ok (sub, [], [])
  | [], true, _ => .error .patternSyntaxError
  | c :: rest, false, sub =>
    if isBreakChar c then .ok (sub, [], c :: rest)
    else if c = quoteChar then
      match consumeAffixLoop rest true sub with
      | .error e => .error e
      | .ok (s, cs, r) => .ok (s, c :: cs, r)
    else
      match consumeAffixLoop rest false (affixFlag sub c) with
      | .error e => .error e
      | .ok (s, cs, r) => .ok (s, c :: cs, r)
  | c :: rest, true, sub =>
    if c = quoteChar then
      match consumeAffixLoop rest false sub with
      | .error e => .error e
      | .ok (s, cs, r) => .ok (s, c :: cs, r)
    else
      match consumeAffixLoop rest true sub with
      | .error e => .error e
      | .ok (s, cs, r) => .ok (s, c :: cs, r)

/-- Entry point corresponding to `consumeAffix` (start outside any quote). -/
def consumeAffix (sub : ParsedSubpatternInfo) (xs : List Char) :
    Except PErr (ParsedSubpatternInfo × List Char × List Char) :=
  consumeAffixLoop xs false sub

/-- The scanning loop of `ParsedPatternInfo::consumeIntegerFormat`: `,` `#`
`@` and digits update the accumulators; anything else ends the run. -/
def consumeIntegerLoop (r : ParsedSubpatternInfo) :
    List Char → Except PErr (ParsedSubpatternInfo × List Char)
  | [] => .ok (r, [])
  | c :: rest =>
    if c = ',' then
      consumeIntegerLoop
        { r with widthExceptAffixes := r.widthExceptAffixes + 1,
                 groupingSizes := r.groupingSizes * 65536 % 2 ^ 64 } rest
    else if c = '#' then
      if r.integerNumerals > 0 then .error .unexpectedToken
      else
        consumeIntegerLoop
          { r with widthExceptAffixes := r.widthExceptAffixes + 1,
                   groupingSizes := (r.groupingSizes + 1) % 2 ^ 64,
                   integerLeadingHashSigns :=
                     if r.integerAtSigns > 0 then r.integerLeadingHashSigns
                     else r.integerLeadingHashSigns + 1,
                   integerTrailingHashSigns :=
                     if r.integerAtSigns > 0 then r.integerTrailingHashSigns + 1
                     else r.integerTrailingHashSigns,
                   integerTotal := r.integerTotal + 1 } rest
    else if c = '@' then
      if r.integerNumerals > 0 then .error .unexpectedToken
      else if r.integerTrailingHashSigns > 0 then .error .unexpectedToken
      else
        consumeIntegerLoop
          { r with widthExceptAffixes := r.widthExceptAffixes + 1,
                   groupingSizes := (r.groupingSizes + 1) % 2 ^ 64,
                   integerAtSigns := r.integerAtSigns + 1,
                   integerTotal := r.integerTotal + 1 } rest
    else if '0' ≤ c ∧ c ≤ '9' then
      if r.integerAtSigns > 0 then .error .unexpectedToken
      else
        consumeIntegerLoop
          { r with widthExceptAffixes := r.widthExceptAffixes + 1,
                   groupingSizes := (r.groupingSizes + 1) % 2 ^ 64,
                   integerNumerals := r.integerNumerals + 1,
                   integerTotal := r.integerTotal + 1,
                   rounding :=
                     if ¬r.rounding.isZero ∨ c ≠ '0' then
                       r.rounding.appendDigit (c.toNat - '0'.toNat) 0 true
                     else r.rounding } rest
    else .ok (r, c :: rest)

/-- `ParsedPatternInfo::consumeIntegerFormat`: the scanning loop followed by
the two grouping validity checks (trailing separator, zero-width slot). -/
def consumeIntegerFormat (r : ParsedSubpatternInfo) (xs : List Char) :
    Except PErr (ParsedSubpatternInfo × List Char) :=
  match consumeIntegerLoop r xs with
  | .error e => .error e
  | .ok (r2, rest) =>
    if groupingSlot1 r2.groupingSizes = 0 ∧ groupingSlot2 r2.groupingSizes ≠ -1 then
      .error .unexpectedToken
    else if groupingSlot2 r2.groupingSizes = 0 ∧ groupingSlot3 r2.groupingSizes ≠ -1 then
      .error .patternSyntaxError
    else .ok (r2, rest)

/-- `ParsedPatternInfo::consumeFractionFormat`: digits and `#` accumulate
counts (a numeral after a `#` is fatal); the local `zeroCounter` tracks the
run of suppressed zeros fed to the rounding accumulator. -/
def consumeFractionLoop (r : ParsedSubpatternInfo) (zeroCounter : Nat) :
    List Char → Except PErr (ParsedSubpatternInfo × List Char)
  | [] => .ok (r, [])
  | c :: rest =>
    if c = '#' then
      consumeFractionLoop
        { r with widthExceptAffixes := r.widthExceptAffixes + 1,
                 fractionHashSigns := r.fractionHashSigns + 1,
                 fractionTotal := r.fractionTotal + 1 } (zeroCounter + 1) rest
    else if '0' ≤ c ∧ c ≤ '9' then
      if r.fractionHashSigns > 0 then .error .unexpectedToken
      else if c = '0' then
        consumeFractionLoop
          { r with widthExceptAffixes := r.widthExceptAffixes + 1,
                   fractionNumerals := r.fractionNumerals + 1,
                   fractionTotal := r.fractionTotal + 1 } (zeroCounter + 1) rest
      else
        consumeFractionLoop
          { r with widthExceptAffixes := r.widthExceptAffixes + 1,
                   fractionNumerals := r.fractionNumerals + 1,
                   fractionTotal := r.fractionTotal + 1,
                   rounding := r.rounding.appendDigit (c.toNat - '0'.toNat) zeroCounter false }
          0 rest
    else .ok (r, c :: rest)

/-- `ParsedPatternInfo::consumeFormat`: the integer format, then optionally a
decimal point and the fraction format. -/
def consumeFormat (r : ParsedSubpatternInfo) (xs : List Char) :
    Except PErr (ParsedSubpatternInfo × List Char) :=
  match consumeIntegerFormat r xs with
  | .error e => .error e
  | .ok (r2, rest) =>
    match rest with
    | '.' :: rest2 =>
      consumeFractionLoop
        { r2 with hasDecimal := true, widthExceptAffixes := r2.widthExceptAffixes + 1 }
        0 rest2
    | _ => .ok (r2, rest)

/-- The run of `0`s counting minimum exponent digits in `consumeExponent`. -/
def consumeExponentZeros (r : ParsedSubpatternInfo) :
    List Char → ParsedSubpatternInfo × List Char
  | '0' :: rest =>
    consumeExponentZeros
      { r with exponentZeros := r.exponentZeros + 1,
               widthExceptAffixes := r.widthExceptAffixes + 1 } rest
  | xs => (r, xs)

/-- `ParsedPatternInfo::consumeExponent`: a literal `E` (fatal if a grouping
separator was recorded, i.e. the secondary slot is occupied), an optional
`+`, then a run of `0`s. -/
def consumeExponent (r : ParsedSubpatternInfo) (xs : List Char) :
    Except PErr (ParsedSubpatternInfo × List Char) :=
  match xs with
  | 'E' :: rest =>
    if r.groupingSizes / 65536 % 65536 ≠ 0xffff then .error .malformedExponentialPattern
    else
      let r1 := { r with widthExceptAffixes := r.widthExceptAffixes + 1 }
      match rest with
      | '+' :: rest2 =>
        .ok (consumeExponentZeros
          { r1 with exponentHasPlusSign := true,
                    widthExceptAffixes := r1.widthExceptAffixes + 1 } rest2)
      | _ => .ok (consumeExponentZeros r1 rest)
  | _ => .ok (r, xs)

/-- `ParsedPatternInfo::consumePadding`: a `*` at this structural position
(fatal if the subpattern already declared padding) followed by exactly one
literal, recorded as the pad character slice. -/
def consumePadding (r : ParsedSubpatternInfo) (loc : PadPosition) (xs : List Char) :
    Except PErr (ParsedSubpatternInfo × List Char) :=
  match xs with
  | '*' :: rest =>
    if r.hasPadding then .error .multiplePadSpecifiers
    else
      match consumeLiteral rest with
      | .error e => .error e
      | .ok (lit, r2) =>
        .ok ({ r with paddingLocation := some loc, hasPadding := true,
                      paddingChars := lit }, r2)
  | _ => .ok (r, xs)

/-- `ParsedPatternInfo::consumeSubpattern`:
`subpattern := padding? prefix padding? format exponent? padding? suffix padding?`. -/
def consumeSubpattern (sub : ParsedSubpatternInfo) (xs : List Char) :
    Except PErr (ParsedSubpatternInfo × List Char) := do
  let (s1, xs1) ← consumePadding sub .beforePrefix xs
  let (s2, pfx, xs2) ← consumeAffix s1 xs1
  let s2 := { s2 with prefixChars := pfx }
  let (s3, xs3) ← consumePadding s2 .afterPrefix xs2
  let (s4, xs4) ← consumeFormat s3 xs3
  let (s5, xs5) ← consumeExponent s4 xs4
  let (s6, xs6) ← consumePadding s5 .beforeSuffix xs5
  let (s7, sfx, xs7) ← consumeAffix s6 xs6
  let s7 := { s7 with suffixChars := sfx }
  let (s8, xs8) ← consumePadding s7 .afterSuffix xs7
  return (s8, xs8)

/-- `ParsedPatternInfo::consumePattern`:
`pattern := subpattern (';' subpattern)?`; a trailing `;` with nothing after
it is accepted without populating the negative subpattern; any other
unconsumed text is a fatal `U_UNQUOTED_SPECIAL`. -/
def consumePattern (patternString : List Char) : Except PErr ParsedPatternInfo := do
  let (pos, rest) ← consumeSubpattern {} patternString
  match rest with
  | [] => return { pattern := patternString, positive := pos }
  | c :: rest2 =>
    if c = ';' then
      match rest2 with
      | [] => return { pattern := patternString, positive := pos }
      | _ => do
        let (neg, rest3) ← consumeSubpattern {} rest2
        match rest3 with
        | [] =>
          return { pattern := patternString, positive := pos, negative := neg,
                   fHasNegativeSubpattern := true }
        | _ => .error .unquotedSpecial
    else .error .unquotedSpecial

/-- The `IgnoreRounding` policy of `PatternParser`. -/
inductive IgnoreRounding where
  | never
  | ifCurrency
  | always
  deriving DecidableEq, Repr

/-- Modelled from the spec: `DecimalFormatProperties` (`decimfmtprops.h` is
not under `src/`), the spec's `FormatSpecification` (§3): "grouping
size/secondary-size/used-flag; min/max integer digits; min/max fraction
digits OR min/max significant digits; rounding increment; decimal-point
always-shown flag; exponent settings; padding width / pad character / pad
position; four affix-pattern texts where unset is distinct from empty; a
magnitude multiplier".  `-1` is the "unset" sentinel for the integer-valued
fields and `none` models a bogus (unset) string or a null pad position.
The rounding increment (a `double` in C++) is modelled exactly by the
decimal value the parser's accumulator produced. -/
structure DecimalFormatProperties where
  groupingSize : Int := -1
  groupingUsed : Bool := true
  secondaryGroupingSize : Int := -1
  minimumIntegerDigits : Int := -1
  maximumIntegerDigits : Int := -1
  minimumFractionDigits : Int := -1
  maximumFractionDigits : Int := -1
  minimumSignificantDigits : Int := -1
  maximumSignificantDigits : Int := -1
  roundingIncrement : DecQuantity := {}
  decimalSeparatorAlwaysShown : Bool := false
  exponentSignAlwaysShown : Bool := false
  minimumExponentDigits : Int := -1
  formatWidth : Int := -1
  padString : Option (List Char) := none
  padPosition : Option PadPosition := none
  positivePrefixPattern : Option (List Char) := none
  positiveSuffixPattern : Option (List Char) := none
  negativePrefixPattern : Option (List Char) := none
  negativeSuffixPattern : Option (List Char) := none
  positivePrefix : Option (List Char) := none
  positiveSuffix : Option (List Char) := none
  negativePrefix : Option (List Char) := none
  negativeSuffix : Option (List Char) := none
  magnitudeMultiplier : Int := 0
  deriving DecidableEq, Repr

/-- Modelled from the spec: `AffixUtils::estimateLength`
(`number_affixutils.cpp` is not under `src/`).  Per the spec (§4.3) the
padding width folds in "the rendered length of the positive prefix/suffix
affix patterns (escaping applied)": one per unquoted character, one per
character inside a quoted run, a doubled quote counting as one literal
quote. -/
def estimateLengthLoop : List Char → Nat → Nat
  | [], _ => 0
  | c :: rest, st =>
    if st = 0 then
      -- outside any quote
      if c = quoteChar then estimateLengthLoop rest 1 else 1 + estimateLengthLoop rest 0
    else if st = 1 then
      -- a quote was just opened: a second quote is the escaped literal quote
      if c = quoteChar then 1 + estimateLengthLoop rest 0 else 1 + estimateLengthLoop rest 2
    else if st = 2 then
      -- inside a quoted run
      if c = quoteChar then estimateLengthLoop rest 3 else 1 + estimateLengthLoop rest 2
    else
      -- a quote was just closed: a second quote is an escaped quote inside the run
      if c = quoteChar then 1 + estimateLengthLoop rest 2 else 1 + estimateLengthLoop rest 0

/-- Rendered length of an affix pattern (see `estimateLengthLoop`). -/
def estimateLength (xs : List Char) : Nat := estimateLengthLoop xs 0

/-- The pad string extraction of `patternInfoToProperties`: the raw padding
slice, with a two-character slice starting with a quote un-escaped to a
literal quote and a longer slice stripped of its surrounding quotes. -/
def extractPadString (raw : List Char) : List Char :=
  if raw.length = 1 then raw
  else if raw.length = 2 then
    if raw.head? = some quoteChar then [quoteChar] else raw
  else (raw.drop 1).take (raw.length - 2)

/-- `PatternParser::patternInfoToProperties`: translate a `ParsedPatternInfo`
into properties.  Follows the C++ block by block; most data from the
negative subpattern is ignored per the specification of DecimalFormat. -/
def patternInfoToProperties (properties : DecimalFormatProperties)
    (patternInfo : ParsedPatternInfo) (ignoreRoundingPolicy : IgnoreRounding) :
    DecimalFormatProperties :=
  let positive := patternInfo.positive
  let ignoreRounding :=
    match ignoreRoundingPolicy with
    | .never => false
    | .ifCurrency => positive.hasCurrencySign
    | .always => true
  -- Grouping settings
  let g1 := groupingSlot1 positive.groupingSizes
  let g2 := groupingSlot2 positive.groupingSizes
  let g3 := groupingSlot3 positive.groupingSizes
  let groupingSize := if g2 ≠ -1 then g1 else -1
  let groupingUsed : Bool := g2 != -1
  let secondaryGroupingSize := if g3 ≠ -1 then g2 else -1
  -- For backwards compatibility, require that the pattern emit at least one min digit.
  let minIntFrac : Int × Int :=
    if positive.integerTotal = 0 ∧ positive.fractionTotal > 0 then
      -- patterns like ".##"
      (0, max 1 (positive.fractionNumerals : Int))
    else if positive.integerNumerals = 0 ∧ positive.fractionNumerals = 0 then
      -- patterns like "#.##"
      (1, 0)
    else
      ((positive.integerNumerals : Int), (positive.fractionNumerals : Int))
  let minInt := minIntFrac.1
  let minFrac := minIntFrac.2
  -- Rounding settings
  let roundingFields : Int × Int × DecQuantity × Int × Int :=
    if positive.integerAtSigns > 0 then
      (-1, -1, {}, (positive.integerAtSigns : Int),
        (positive.integerAtSigns : Int) + (positive.integerTrailingHashSigns : Int))
    else if positive.rounding.isZero then
      if ignoreRounding then (-1, -1, {}, -1, -1)
      else (minFrac, (positive.fractionTotal : Int), {}, -1, -1)
    else
      if ignoreRounding then (-1, -1, {}, -1, -1)
      else (minFrac, (positive.fractionTotal : Int), positive.rounding, -1, -1)
  -- Scientific notation settings
  let expFields : Bool × Int × Int × Int :=
    if positive.exponentZeros > 0 then
      if positive.integerAtSigns = 0 then
        (positive.exponentHasPlusSign, (positive.exponentZeros : Int),
          (positive.integerNumerals : Int), (positive.integerTotal : Int))
      else
        (positive.exponentHasPlusSign, (positive.exponentZeros : Int), 1, -1)
    else (false, -1, minInt, -1)
  -- Compute the affix patterns (required for both padding and affixes)
  let posPrefix := positive.prefixChars
  let posSuffix := positive.suffixChars
  -- Padding settings
  let padFields : Int × Option (List Char) × Option PadPosition :=
    if positive.hasPadding then
      ((positive.widthExceptAffixes : Int) + (estimateLength posPrefix : Int) +
          (estimateLength posSuffix : Int),
        some (extractPadString positive.paddingChars), positive.paddingLocation)
    else (-1, none, none)
  { properties with
    groupingSize := groupingSize
    groupingUsed := groupingUsed
    secondaryGroupingSize := secondaryGroupingSize
    minimumFractionDigits := roundingFields.1
    maximumFractionDigits := roundingFields.2.1
    roundingIncrement := roundingFields.2.2.1
    minimumSignificantDigits := roundingFields.2.2.2.1
    maximumSignificantDigits := roundingFields.2.2.2.2
    decimalSeparatorAlwaysShown := positive.hasDecimal && (positive.fractionTotal == 0)
    exponentSignAlwaysShown := expFields.1
    minimumExponentDigits := expFields.2.1
    minimumIntegerDigits := expFields.2.2.1
    maximumIntegerDigits := expFields.2.2.2
    formatWidth := padFields.1
    padString := padFields.2.1
    padPosition := padFields.2.2
    -- Always set the affixes, even if empty, to prevent default values
    -- from overriding the pattern.
    positivePrefixPattern := some posPrefix
    positiveSuffixPattern := some posSuffix
    negativePrefixPattern :=
      if patternInfo.fHasNegativeSubpattern then some patternInfo.negative.prefixChars
      else none
    negativeSuffixPattern :=
      if patternInfo.fHasNegativeSubpattern then some patternInfo.negative.suffixChars
      else none
    magnitudeMultiplier :=
      if positive.hasPercentSign then 2
      else if positive.hasPerMilleSign then 3
      else 0 }

/-- `PatternParser::parseToExistingPropertiesImpl`: an empty pattern resets
the properties to defaults; otherwise the pattern is parsed into a fresh
`ParsedPatternInfo` and the properties are written only after a successful
parse.  The pair returns the error (if any) together with the caller's
properties object after the call. -/
def parseToExistingPropertiesImpl (pattern : List Char)
    (properties : DecimalFormatProperties) (ignoreRounding : IgnoreRounding) :
    Option PErr × DecimalFormatProperties :=
  if pattern.length = 0 then
    -- Backwards compatibility requires that we reset to the default values.
    (none, {})
  else
    match consumePattern pattern with
    | .error e => (some e, properties)
    | .ok patternInfo =>
      (none, patternInfoToProperties properties patternInfo ignoreRounding)

/-- `PatternParser::parseToProperties`: parse into a default-constructed
properties object. -/
def parseToProperties (pattern : List Char) (ignoreRounding : IgnoreRounding) :
    Except PErr DecimalFormatProperties :=
  match parseToExistingPropertiesImpl pattern {} ignoreRounding with
  | (some e, _) => .error e
  | (none, p) => .ok p

/-! ## Specification → pattern serializer (`PatternStringUtils::propertiesToPatternString`) -/

/-- Double every quote character (used when wrapping a literal in quotes). -/
def doubleQuotes : List Char → List Char
  | [] => []
  | c :: rest =>
    if c = quoteChar then quoteChar :: quoteChar :: doubleQuotes rest
    else c :: doubleQuotes rest

/-- Modelled from the spec: `AffixUtils::escape` (`number_affixutils.cpp` is
not under `src/`); per the spec's escaping rule (§4.4), "a literal equal to a
single quote becomes `''`; any other literal containing a quote character
wraps the whole literal in quotes, doubling each internal quote".  An unset
(bogus) string contributes nothing. -/
def affixEscape (s : Option (List Char)) : List Char :=
  match s with
  | none => []
  | some xs =>
    if xs = [quoteChar] then [quoteChar, quoteChar]
    else if xs.contains quoteChar then quoteChar :: (doubleQuotes xs ++ [quoteChar])
    else xs

/-- `kFallbackPaddingString`: the default pad character is a space. -/
def kFallbackPaddingString : List Char := [' ']

/-- `PatternStringUtils::escapePaddingString`, as the escaped character
sequence it inserts: a lone quote becomes `''`; a multi-character pad string
is wrapped in quotes with internal quotes doubled. -/
def escapePaddingString (input : List Char) : List Char :=
  let input := if input.length = 0 then kFallbackPaddingString else input
  if input.length = 1 then
    if input = [quoteChar] then [quoteChar, quoteChar] else input
  else quoteChar :: (doubleQuotes input ++ [quoteChar])

/-- `xs` with `ys` inserted at index `i` (`UnicodeString::insert`). -/
def insertAt (xs : List Char) (i : Nat) (ys : List Char) : List Char :=
  xs.take i ++ ys ++ xs.drop i

/-- The digit-writing loop of `propertiesToPatternString`: walk magnitudes
from `m0` down to `mN` (the `Nat` argument counts the remaining iterations),
emitting a digit character (from the digits string, `#` when out of range)
and inserting grouping separators and the decimal point per the grouping
parameters. -/
def emitDigits (ds : List Char) (scale grouping grouping2 : Int)
    (alwaysShowDecimal : Bool) (mN : Int) : Nat → Int → List Char
  | 0, _ => []
  | k + 1, magnitude =>
    let di := (ds.length : Int) + scale - magnitude - 1
    let c := if di < 0 ∨ di ≥ (ds.length : Int) then '#' else ds.getD di.toNat '#'
    let seps : List Char :=
      if magnitude > grouping2 ∧ grouping > 0 ∧ (magnitude - grouping2) % grouping = 0 then
        [',']
      else if magnitude > 0 ∧ magnitude = grouping2 then [',']
      else if magnitude = 0 ∧ (alwaysShowDecimal ∨ mN < 0) then ['.']
      else []
    (c :: seps) ++ emitDigits ds scale grouping grouping2 alwaysShowDecimal mN k (magnitude - 1)

/-- The grouping-size resolution block of `propertiesToPatternString`
(clamped secondary and primary sizes in, `(grouping, grouping1, grouping2)`
out). -/
def serializerGrouping (groupingSize firstGroupingSize : Int) : Int × Int × Int :=
  if groupingSize ≠ min 100 (-1) ∧ firstGroupingSize ≠ min 100 (-1) ∧
      groupingSize ≠ firstGroupingSize then
    (groupingSize, groupingSize, firstGroupingSize)
  else if groupingSize ≠ min 100 (-1) then
    (groupingSize, 0, groupingSize)
  else if firstGroupingSize ≠ min 100 (-1) then
    (groupingSize, 0, firstGroupingSize)
  else (0, 0, 0)

/-- The digits-string block of `propertiesToPatternString` (clamped
significant/min digit fields in, digits string and its scale out): `@`/`#`
for significant-digit bounds, else the plain decimal digits of a non-zero
rounding increment; then left-pad `0`s to the minimum integer count and
right-pad fraction `0`s to the minimum fraction count. -/
def serializerDigits (minSig maxSig minInt minFrac : Int) (roundingInterval : DecQuantity) :
    List Char × Int :=
  let dsPair : List Char × Int :=
    if maxSig ≠ min 100 (-1) then
      -- Significant Digits.
      let ds1 := List.replicate minSig.toNat '@'
      (ds1 ++ List.replicate (maxSig.toNat - ds1.length) '#', 0)
    else if ¬roundingInterval.isZero then
      -- Rounding Interval: plain decimal digits at the scale of the increment.
      (Nat.toDigits 10 roundingInterval.num, -(roundingInterval.scale : Int))
    else ([], 0)
  let intPad := (minInt - ((dsPair.1.length : Int) + dsPair.2)).toNat
  let ds4 := List.replicate intPad '0' ++ dsPair.1
  let fracPad := (minFrac + dsPair.2).toNat
  (ds4 ++ List.replicate fracPad '0', dsPair.2 - fracPad)

/-- The digits string and scale of the serializer for a properties object
(fields clamped as in the C++ locals). -/
def serializerDS (p : DecimalFormatProperties) : List Char × Int :=
  serializerDigits (min p.minimumSignificantDigits 100) (min p.maximumSignificantDigits 100)
    (max (min p.minimumIntegerDigits 100) 0) (max (min p.minimumFractionDigits 100) 0)
    p.roundingIncrement

/-- The resolved grouping triple of the serializer for a properties object. -/
def serializerGroupingP (p : DecimalFormatProperties) : Int × Int × Int :=
  serializerGrouping (min p.secondaryGroupingSize 100) (min p.groupingSize 100)

/-- The most significant magnitude the digit loop visits. -/
def serializerM0 (p : DecimalFormatProperties) : Int :=
  let groupingLength := (serializerGroupingP p).2.1 + (serializerGroupingP p).2.2 + 1
  let base := max groupingLength (((serializerDS p).1.length : Int) + (serializerDS p).2)
  if min p.maximumIntegerDigits 100 ≠ 100 then max (min p.maximumIntegerDigits 100) base - 1
  else base - 1

/-- The least magnitude the digit loop visits. -/
def serializerMN (p : DecimalFormatProperties) : Int :=
  if min p.maximumFractionDigits 100 ≠ 100 then
    min (-(min p.maximumFractionDigits 100)) (serializerDS p).2
  else (serializerDS p).2

/-- The digit core (digits, grouping separators and decimal point) written
by the serializer's magnitude loop. -/
def serializerCore (p : DecimalFormatProperties) : List Char :=
  emitDigits (serializerDS p).1 (serializerDS p).2 (serializerGroupingP p).1
    (serializerGroupingP p).2.2 p.decimalSeparatorAlwaysShown (serializerMN p)
    (serializerM0 p - serializerMN p + 1).toNat (serializerM0 p)

/-- Everything `propertiesToPatternString` builds before padding resolution:
the string builder contents together with `afterPrefixPos` and
`beforeSuffixPos`. -/
def serializerSB3 (properties : DecimalFormatProperties) : List Char × Nat × Nat :=
  let exponentDigits := min properties.minimumExponentDigits 100
  -- Prefixes
  let sb0 := (properties.positivePrefixPattern.getD []) ++ affixEscape properties.positivePrefix
  let afterPrefixPos := sb0.length
  -- Digits
  let sb1 := sb0 ++ serializerCore properties
  -- Exponential notation.
  let sb2 := sb1 ++
    (if exponentDigits ≠ min 100 (-1) then
      'E' :: ((if properties.exponentSignAlwaysShown then ['+'] else []) ++
        List.replicate exponentDigits.toNat '0')
    else [])
  -- Suffixes.
  let beforeSuffixPos := sb2.length
  (sb2 ++ (properties.positiveSuffixPattern.getD []) ++
    affixEscape properties.positiveSuffix, afterPrefixPos, beforeSuffixPos)

/-- The padding-resolution block of `propertiesToPatternString`: insert `#`
fill until the clamped format width is met, then insert the pad specifier at
the stored pad location, adjusting the recorded positions. -/
def serializerPadded (properties : DecimalFormatProperties) : List Char × Nat × Nat :=
  let paddingWidth := min properties.formatWidth 100
  let paddingLocation := properties.padPosition
  let sb3 := (serializerSB3 properties).1
  let afterPrefixPos := (serializerSB3 properties).2.1
  let beforeSuffixPos := (serializerSB3 properties).2.2
  if paddingWidth ≠ -1 ∧ paddingLocation ≠ none then
    let fill := (paddingWidth - (sb3.length : Int)).toNat
    let sb4 := insertAt sb3 afterPrefixPos (List.replicate fill '#')
    let bsp := beforeSuffixPos + fill
    let esc := escapePaddingString (properties.padString.getD [])
    match paddingLocation with
    | some .beforePrefix =>
      ('*' :: (esc ++ sb4), afterPrefixPos + esc.length + 1, bsp + esc.length + 1)
    | some .afterPrefix =>
      (insertAt sb4 afterPrefixPos ('*' :: esc), afterPrefixPos + esc.length + 1,
        bsp + esc.length + 1)
    | some .beforeSuffix => (insertAt sb4 bsp ('*' :: esc), afterPrefixPos, bsp)
    | some .afterSuffix => (sb4 ++ '*' :: esc, afterPrefixPos, bsp)
    | none => (sb4, afterPrefixPos, bsp)
  else (sb3, afterPrefixPos, beforeSuffixPos)

/-- `PatternStringUtils::propertiesToPatternString`: serialize a properties
object to pattern text.  The `min`/`max` calls against the DoS bound 100
clamp every size-like field before use, exactly as the C++ does; the
rounding-increment digits are rendered from the exact decimal value (the C++
recovers the same digits from the `double` via `DecimalQuantity`).  The final
block appends the negative subpattern (negative prefix, a copy of the
positive digit skeleton, negative suffix) unless the negative affix pattern
is the default `-`/empty or absent. -/
def propertiesToPatternString (properties : DecimalFormatProperties) : List Char :=
  let sbP := (serializerPadded properties).1
  let app := (serializerPadded properties).2.1
  let bsp := (serializerPadded properties).2.2
  let np := properties.negativePrefix
  let npp := properties.negativePrefixPattern
  let ns := properties.negativeSuffix
  let nsp := properties.negativeSuffixPattern
  if np ≠ none ∨ ns ≠ none ∨ (npp = none ∧ nsp ≠ none) ∨
      (npp ≠ none ∧ (npp.getD [] ≠ ['-'] ∨ nsp.getD [] ≠ [])) then
    sbP ++ ';' :: (npp.getD [] ++ affixEscape np ++
      ((sbP.drop app).take (bsp - app)) ++ nsp.getD [] ++ affixEscape ns)
  else sbP

/-! ## Affix resolver (`PatternStringUtils::patternInfoToStringBuilder`) -/

/-- `UNumberSignDisplay` (sign-display policy). -/
inductive UNumberSignDisplay where
  | auto
  | always
  | never
  | accounting
  | accountingAlways
  | exceptZero
  | accountingExceptZero
  deriving DecidableEq, Repr

/-- `ParsedPatternInfo::getEndpoints`: select the affix slice addressed by
the flag combination.  (The plural bits of the flag word select among
currency-plural providers and are ignored by `ParsedPatternInfo`.) -/
def getSlice (ppi : ParsedPatternInfo) (negativeF prefixF paddingF : Bool) : List Char :=
  if negativeF && paddingF then ppi.negative.paddingChars
  else if paddingF then ppi.positive.paddingChars
  else if prefixF && negativeF then ppi.negative.prefixChars
  else if prefixF then ppi.positive.prefixChars
  else if negativeF then ppi.negative.suffixChars
  else ppi.positive.suffixChars

/-- Should the output render `+` where `-` would normally appear in the
pattern?  (The first Boolean computed by `patternInfoToStringBuilder`.) -/
def plusReplacesMinusSign (patternInfo : ParsedPatternInfo) (signum : Int)
    (signDisplay : UNumberSignDisplay) : Bool :=
  signum != -1 &&
    (signDisplay == .always || signDisplay == .accountingAlways ||
      (signum == 1 && (signDisplay == .exceptZero || signDisplay == .accountingExceptZero))) &&
    patternInfo.positive.hasPlusSign == false

/-- Should we use the affix from the negative subpattern?  (The second
Boolean computed by `patternInfoToStringBuilder`.) -/
def useNegativeAffixPattern (patternInfo : ParsedPatternInfo) (signum : Int)
    (plusReplacesMinus : Bool) : Bool :=
  patternInfo.fHasNegativeSubpattern &&
    (signum == -1 || (patternInfo.negative.hasMinusSign && plusReplacesMinus))

/-- Should we prepend a sign to the pattern?  (The third decision of
`patternInfoToStringBuilder`: only for a prefix, only when not using the
negative subpattern, per the sign/policy combination.) -/
def resolverPrependSign (patternInfo : ParsedPatternInfo) (isPrefix : Bool)
    (signum : Int) (signDisplay : UNumberSignDisplay) : Bool :=
  let prm := plusReplacesMinusSign patternInfo signum signDisplay
  let useNeg := useNegativeAffixPattern patternInfo signum prm
  if !isPrefix || useNeg then false
  else if signum = -1 then signDisplay != UNumberSignDisplay.never
  else prm

/-- The affix characters `patternInfoToStringBuilder` renders, before the
character substitutions: the selected slice, with a `-` prepended when the
prepend-sign decision holds. -/
def resolverBaseAffix (patternInfo : ParsedPatternInfo) (isPrefix : Bool)
    (signum : Int) (signDisplay : UNumberSignDisplay) : List Char :=
  let prm := plusReplacesMinusSign patternInfo signum signDisplay
  let useNeg := useNegativeAffixPattern patternInfo signum prm
  let slice := getSlice patternInfo useNeg isPrefix false
  if resolverPrependSign patternInfo isPrefix signum signDisplay then '-' :: slice
  else slice

/-- `PatternStringUtils::patternInfoToStringBuilder`: render the affix for
the given sign and policy from the parsed pattern, substituting `-`→`+` and
`%`→per-mille where applicable. -/
def patternInfoToStringBuilder (patternInfo : ParsedPatternInfo) (isPrefix : Bool)
    (signum : Int) (signDisplay : UNumberSignDisplay)
    (perMilleReplacesPercent : Bool) : List Char :=
  let prm := plusReplacesMinusSign patternInfo signum signDisplay
  let useNeg := useNegativeAffixPattern patternInfo signum prm
  let slice := getSlice patternInfo useNeg isPrefix false
  let prependSign := resolverPrependSign patternInfo isPrefix signum signDisplay
  let len := slice.length + (if prependSign then 1 else 0)
  (List.range len).map (fun index =>
    let candidate :=
      if prependSign ∧ index = 0 then '-'
      else if prependSign then slice.getD (index - 1) ' '
      else slice.getD index ' '
    let candidate := if prm ∧ candidate = '-' then '+' else candidate
    if perMilleReplacesPercent ∧ candidate = '%' then permilleChar else candidate)

/-! ## Localized-symbol converter (`PatternStringUtils::convertLocalized`) -/

/-- Modelled from the spec: the finite symbol table consumed by the
converter (`DecimalFormatSymbols` itself is locale data outside this core);
the spec says "the core consumes a finite enumerated symbol table, defined
externally".  Defaults are the standard ASCII symbols. -/
structure DecimalFormatSymbols where
  percent : List Char := ['%']
  perMille : List Char := [permilleChar]
  decimalSeparator : List Char := ['.']
  groupingSeparator : List Char := [',']
  minusSign : List Char := ['-']
  plusSign : List Char := ['+']
  patternSeparator : List Char := [';']
  significantDigit : List Char := ['@']
  exponential : List Char := ['E']
  padEscape : List Char := ['*']
  digitSymbol : List Char := ['#']
  digits : List (List Char) :=
    (List.range 10).map (fun i => [Char.ofNat ('0'.toNat + i)])
  deriving DecidableEq, Repr

/-- Quotes are not allowed in any localized symbol; `convertLocalized`
substitutes them with a right single quotation mark U+2019. -/
def replaceQuotes (xs : List Char) : List Char :=
  xs.map (fun c => if c = quoteChar then Char.ofNat 0x2019 else c)

/-- The 21-entry conversion table of `convertLocalized`, oriented by
direction: each pair is (token to match in the input, replacement to emit).
`toLocalized` puts the standard symbol on the input side. -/
def mkTable (symbols : DecimalFormatSymbols) (toLocalized : Bool) :
    List (List Char × List Char) :=
  let base : List (List Char × List Char) :=
    [(['%'], replaceQuotes symbols.percent),
     ([permilleChar], replaceQuotes symbols.perMille),
     (['.'], replaceQuotes symbols.decimalSeparator),
     ([','], replaceQuotes symbols.groupingSeparator),
     (['-'], replaceQuotes symbols.minusSign),
     (['+'], replaceQuotes symbols.plusSign),
     ([';'], replaceQuotes symbols.patternSeparator),
     (['@'], replaceQuotes symbols.significantDigit),
     (['E'], replaceQuotes symbols.exponential),
     (['*'], replaceQuotes symbols.padEscape),
     (['#'], replaceQuotes symbols.digitSymbol)] ++
    (List.range 10).map (fun i =>
      ([Char.ofNat ('0'.toNat + i)], replaceQuotes (symbols.digits.getD i [])))
  if toLocalized then base else base.map (fun pr => (pr.2, pr.1))

/-- Does the input start with the given token?  (Recursion is on the token,
so the test reduces whenever the token is concrete.) -/
def startsWithToken : List Char → List Char → Bool
  | [], _ => true
  | _ :: _, [] => false
  | p :: ps, x :: xs => p == x && startsWithToken ps xs

/-- First table pair whose input side matches at the head of the input
(the C++ iterates the table in order and takes the first match). -/
def findTableMatch (table : List (List Char × List Char)) (input : List Char) :
    Option (List Char × List Char) :=
  match table with
  | [] => none
  | pr :: rest =>
    if startsWithToken pr.1 input then some pr else findTableMatch rest input

/-- Does some pair's output side match at the head of the input?  (The
"special quote necessary" check of `convertLocalized`.) -/
def matchesOutputSide (table : List (List Char × List Char)) (input : List Char) : Bool :=
  table.any (fun pr => startsWithToken pr.2 input)

/-- The 6-state scan loop of `convertLocalized`.  States as in the C++
comment: 0 base; 1 first char inside a quoted sequence in input and output;
2 inside a quoted sequence in both; 3 first char after a close quote in the
input (close quote still pending for the output); 4 base in input, inside a
synthetic quoted sequence in the output; 5 first char inside an input quote
while inside a synthetic output quote.  The `Nat` fuel counts loop
iterations; each iteration consumes at least one character, so
`input.length` iterations always suffice (the C++ would loop forever on an
empty table symbol; here the fuel just runs out). -/
def convertLoop (table : List (List Char × List Char)) :
    Nat → Nat → List Char → Except PErr (List Char)
  | _, state, [] =>
    -- Resolve final quotes.
    if state = 3 ∨ state = 4 then .ok [quoteChar]
    else if state = 0 then .ok []
    else .error .patternSyntaxError
  | 0, _, _ :: _ => .error .patternSyntaxError
  | fuel + 1, state, c :: rest =>
    if c = quoteChar then
      if state = 0 then (convertLoop table fuel 1 rest).map (fun r => quoteChar :: r)
      else if state = 1 then (convertLoop table fuel 0 rest).map (fun r => quoteChar :: r)
      else if state = 2 then convertLoop table fuel 3 rest
      else if state = 3 then
        (convertLoop table fuel 1 rest).map (fun r => quoteChar :: quoteChar :: r)
      else if state = 4 then convertLoop table fuel 5 rest
      else (convertLoop table fuel 4 rest).map (fun r => quoteChar :: quoteChar :: r)
    else if state = 0 ∨ state = 3 ∨ state = 4 then
      match findTableMatch table (c :: rest) with
      | some pr =>
        -- Replace the matched token, closing a pending quote first.
        let closeQ : List Char := if state = 3 ∨ state = 4 then [quoteChar] else []
        (convertLoop table fuel 0 ((c :: rest).drop pr.1.length)).map
          (fun r => closeQ ++ pr.2 ++ r)
      | none =>
        if matchesOutputSide table (c :: rest) then
          -- This text must be escaped to survive re-parsing.
          let openQ : List Char := if state = 0 then [quoteChar] else []
          let newState := if state = 0 then 4 else state
          (convertLoop table fuel newState rest).map (fun r => openQ ++ c :: r)
        else
          -- Copy the char verbatim, closing a pending quote first.
          let closeQ : List Char := if state = 3 ∨ state = 4 then [quoteChar] else []
          (convertLoop table fuel 0 rest).map (fun r => closeQ ++ c :: r)
    else
      -- states 1, 2, 5: inside quotes, copy verbatim
      (convertLoop table fuel 2 rest).map (fun r => c :: r)

/-- `PatternStringUtils::convertLocalized`. -/
def convertLocalized (input : List Char) (symbols : DecimalFormatSymbols)
    (toLocalized : Bool) : Except PErr (List Char) :=
  convertLoop (mkTable symbols toLocalized) input.length 0 input

/-- The symbol table of claim C6: decimal separator becomes `,` and grouping
separator becomes `.`, all other symbols standard. -/
def swapSymbols : DecimalFormatSymbols :=
  { decimalSeparator := [','], groupingSeparator := ['.'] }

/-! ## Helpers for the claims about clamping and the negative-subpattern invariant -/

/-- The properties object with every size-like field clamped to the
serializer's DoS bound 100. -/
def clampProps (p : DecimalFormatProperties) : DecimalFormatProperties :=
  { p with
    groupingSize := min p.groupingSize 100
    secondaryGroupingSize := min p.secondaryGroupingSize 100
    formatWidth := min p.formatWidth 100
    minimumIntegerDigits := min p.minimumIntegerDigits 100
    maximumIntegerDigits := min p.maximumIntegerDigits 100
    minimumFractionDigits := min p.minimumFractionDigits 100
    maximumFractionDigits := min p.maximumFractionDigits 100
    minimumSignificantDigits := min p.minimumSignificantDigits 100
    maximumSignificantDigits := min p.maximumSignificantDigits 100
    minimumExponentDigits := min p.minimumExponentDigits 100 }

/-- Length of an optional string, an unset (bogus) string counting zero. -/
def optLen (s : Option (List Char)) : Nat := (s.getD []).length

/-- Scanner locating the first unescaped pattern separator that the parser
would treat as structural: state 0 is normal text, state 1 is inside a
quoted literal, state 2 follows an unquoted `*` (the next literal is a pad
character, so even a `;` there is not structural), state 3 is inside a
quoted pad character.  Returns the text after that separator. -/
def freeSemicolonSplit : List Char → Nat → Option (List Char)
  | [], _ => none
  | c :: rest, st =>
    if st = 0 then
      if c = ';' then some rest
      else if c = quoteChar then freeSemicolonSplit rest 1
      else if c = '*' then freeSemicolonSplit rest 2
      else freeSemicolonSplit rest 0
    else if st = 1 then
      if c = quoteChar then freeSemicolonSplit rest 0 else freeSemicolonSplit rest 1
    else if st = 2 then
      if c = quoteChar then freeSemicolonSplit rest 3 else freeSemicolonSplit rest 0
    else
      if c = quoteChar then freeSemicolonSplit rest 0 else freeSemicolonSplit rest 3

/-- Does the text contain an unescaped, non-pad-character `;` followed by
non-empty content? -/
def hasFreeSemicolonWithContent (xs : List Char) : Bool :=
  match freeSemicolonSplit xs 0 with
  | some (_ :: _) => true
  | _ => false

/-- The character substitution performed by the claim C6 swap table:
`.` and `,` exchange, every other symbol maps to itself. -/
def swapChar (c : Char) : Char :=
  if c = '.' then ',' else if c = ',' then '.' else c

/-- The input-side key characters of the swap table oriented to-localized. -/
def swapKeys : List Char :=
  ['%', permilleChar, '.', ',', '-', '+', ';', '@', 'E', '*', '#',
   '0', '1', '2', '3', '4', '5', '6', '7', '8', '9']

/-- The input-side key characters of the swap table oriented from-localized
(same set as `swapKeys`, with `.` and `,` transposed in table order). -/
def swapKeysRev : List Char :=
  ['%', permilleChar, ',', '.', '-', '+', ';', '@', 'E', '*', '#',
   '0', '1', '2', '3', '4', '5', '6', '7', '8', '9']

/-- A consumed segment is scanner-neutral: prefixing it does not change
where the free-semicolon scanner splits, starting from the normal state. -/
def segNeutral (seg : List Char) : Prop :=
  ∀ t, freeSemicolonSplit (seg ++ t) 0 = freeSemicolonSplit t 0

/-- Scanner equivalence: the parser-consumed prefix between two positions
does not disturb the free-semicolon scanner. -/
def scanEq (xs rest : List Char) : Prop :=
  ∀ t, freeSemicolonSplit (xs ++ t) 0 = freeSemicolonSplit (rest ++ t) 0

structure NormalizedFields where
  minInt : Int
  maxInt : Int
  minFrac : Int
  maxFrac : Int
  minSig : Int
  maxSig : Int
  grouping1 : Int
  grouping2 : Int
  groupingUsed : Bool
  roundingIncrement : DecQuantity
  magnitudeMultiplier : Int
  deriving DecidableEq, Repr

def normalizedFields (p : DecimalFormatProperties) : NormalizedFields :=
  { minInt := p.minimumIntegerDigits, maxInt := p.maximumIntegerDigits,
    minFrac := p.minimumFractionDigits, maxFrac := p.maximumFractionDigits,
    minSig := p.minimumSignificantDigits, maxSig := p.maximumSignificantDigits,
    grouping1 := p.groupingSize, grouping2 := p.secondaryGroupingSize,
    groupingUsed := p.groupingUsed,
    roundingIncrement := p.roundingIncrement,
    magnitudeMultiplier := p.magnitudeMultiplier }

def roundTripAgrees (pattern : List Char) : Bool :=
  match parseToProperties pattern .never with
  | .error _ => false
  | .ok props =>
    match parseToProperties (propertiesToPatternString props) .never with
    | .error _ => false
    | .ok props2 => decide (normalizedFields props = normalizedFields props2)

/-! ## Theorems -/

/-- Claim C2, counterexample: the claim asserts that parsing `"#0"` and
`"#,#00,0"` fails, but both parse successfully (`#` before the first `0` is
legal, and grouping runs of sizes 1/3 are legal). -/
theorem c2_counterexample :
    ((consumePattern ("#0".toList)).toOption).isSome = true ∧
    ((consumePattern ("#,#00,0".toList)).toOption).isSome = true := by
  exact ⟨rfl, rfl⟩

/-- Claim C2, amended: of the three pattern texts, only `"0#"` is rejected
(`#` may not follow a `0`-style digit before the decimal point, error kind
`U_UNEXPECTED_TOKEN`); `"#0"` and `"#,#00,0"` parse successfully.  Genuine
bad-grouping inputs are rejected with kinds distinct from each other:
a trailing separator (`"#,##0,"`) with `U_UNEXPECTED_TOKEN` and a zero-width
group (`"0,,0"`) with `U_PATTERN_SYNTAX_ERROR`. -/
theorem c2_amended :
    (∃ ppi, consumePattern ("#0".toList) = .ok ppi) ∧
    consumePattern ("0#".toList) = .error .unexpectedToken ∧
    (∃ ppi, consumePattern ("#,#00,0".toList) = .ok ppi) ∧
    consumePattern ("#,##0,".toList) = .error .unexpectedToken ∧
    consumePattern ("0,,0".toList) = .error .patternSyntaxError := by
  exact ⟨⟨_, rfl⟩, rfl, ⟨_, rfl⟩, rfl, rfl⟩

/-- Claim C3: whenever the positive subpattern recorded at least one `@`
symbol, translation enters significant-digit mode: minimum significant
digits is the `@` count, maximum is the `@` count plus the trailing-`#`
count, and the fraction-digit fields and the rounding increment are cleared,
under every ignore-rounding policy; in particular `"@@##"` yields minimum 2,
maximum 4, with the fraction fields unset. -/
theorem c3_significant_digits :
    (∀ (props0 : DecimalFormatProperties) (ppi : ParsedPatternInfo) (ig : IgnoreRounding),
        0 < ppi.positive.integerAtSigns →
        (patternInfoToProperties props0 ppi ig).minimumSignificantDigits =
            (ppi.positive.integerAtSigns : Int) ∧
        (patternInfoToProperties props0 ppi ig).maximumSignificantDigits =
            (ppi.positive.integerAtSigns : Int) + (ppi.positive.integerTrailingHashSigns : Int) ∧
        (patternInfoToProperties props0 ppi ig).minimumFractionDigits = -1 ∧
        (patternInfoToProperties props0 ppi ig).maximumFractionDigits = -1 ∧
        (patternInfoToProperties props0 ppi ig).roundingIncrement = {}) ∧
    (parseToProperties ("@@##".toList) .never).map (fun p =>
        (p.minimumSignificantDigits, p.maximumSignificantDigits,
          p.minimumFractionDigits, p.maximumFractionDigits)) = .ok (2, 4, -1, -1) := by
  refine ⟨?_, by rfl⟩
  intro props0 ppi ig h
  simp only [patternInfoToProperties]
  simp [h]

/-- Claim C3, witness: the theorem applied to the parse of `"@@##"`. -/
theorem c3_significant_digits_witness :
    0 < (((consumePattern ("@@##".toList)).toOption.getD {}).positive.integerAtSigns) ∧
    (patternInfoToProperties {} ((consumePattern ("@@##".toList)).toOption.getD {})
        .never).minimumSignificantDigits = 2 :=
  ⟨by decide, by
    have h := (c3_significant_digits.1 {} ((consumePattern ("@@##".toList)).toOption.getD {})
      .never (by decide)).1
    simpa using h⟩

/-- Claim C5, counterexample: the claim's digit-minimum defaults fail as
stated.  `"@@"` has zero integer and zero fraction `0`-digits, so the claim
predicts minimum fraction digits 0, but significant-digit mode clears the
field to the unset sentinel -1; `"#.##E0"` likewise has zero `0`-digits, so
the claim predicts minimum integer digits 1, but scientific notation sets 0. -/
theorem c5_counterexample :
    (parseToProperties ("@@".toList) .never).map (fun p => p.minimumFractionDigits) =
      .ok (-1) ∧
    (parseToProperties ("#.##E0".toList) .never).map (fun p => p.minimumIntegerDigits) =
      .ok 0 ∧
    ((-1 : Int) = 0 → False) ∧ ((0 : Int) = 1 → False) := by
  exact ⟨rfl, rfl, by decide, by decide⟩

/-- Claim C5, amended: the backward-compatibility minimum-digit defaults
hold of the translated properties with the default never-ignore-rounding
policy, with two provisos the code imposes: the minimum-fraction-digits
clause requires the pattern to have no `@` (significant-digit mode clears
the fraction fields to unset), and the minimum-integer-digits clause
requires the pattern to have no exponent (scientific notation overrides the
integer minimums). -/
theorem c5_amended (props0 : DecimalFormatProperties) (ppi : ParsedPatternInfo) :
    (ppi.positive.integerAtSigns = 0 →
      (patternInfoToProperties props0 ppi .never).minimumFractionDigits =
        (if ppi.positive.integerTotal = 0 ∧ 0 < ppi.positive.fractionTotal then
          max 1 (ppi.positive.fractionNumerals : Int)
        else if ppi.positive.integerNumerals = 0 ∧ ppi.positive.fractionNumerals = 0 then 0
        else (ppi.positive.fractionNumerals : Int))) ∧
    (ppi.positive.exponentZeros = 0 →
      (patternInfoToProperties props0 ppi .never).minimumIntegerDigits =
        (if ppi.positive.integerTotal = 0 ∧ 0 < ppi.positive.fractionTotal then 0
        else if ppi.positive.integerNumerals = 0 ∧ ppi.positive.fractionNumerals = 0 then 1
        else (ppi.positive.integerNumerals : Int))) := by
  constructor
  · intro h
    simp only [patternInfoToProperties]
    simp [h, apply_ite Prod.snd]
    split <;> simp
  · intro h
    simp only [patternInfoToProperties]
    simp [h, apply_ite Prod.fst]

/-- Claim C5, witness: the amended theorem applied to the parse of `".##"`
(minimum integer digits 0, minimum fraction digits 1). -/
theorem c5_amended_witness :
    ((consumePattern (".##".toList)).toOption.getD {}).positive.integerAtSigns = 0 ∧
    ((consumePattern (".##".toList)).toOption.getD {}).positive.exponentZeros = 0 ∧
    (patternInfoToProperties {} ((consumePattern (".##".toList)).toOption.getD {})
        .never).minimumFractionDigits = 1 ∧
    (patternInfoToProperties {} ((consumePattern (".##".toList)).toOption.getD {})
        .never).minimumIntegerDigits = 0 := by
  have h := c5_amended {} ((consumePattern (".##".toList)).toOption.getD {})
  refine ⟨by decide, by decide, ?_, ?_⟩
  · have := h.1 (by decide)
    simpa using this
  · have := h.2 (by decide)
    simpa using this

/-- Claim C9: `parseToExistingPropertiesImpl` is atomic on parse errors: for
every non-empty pattern text, if the parse fails the caller's properties
value is returned untouched (parsing happens into a fresh
`ParsedPatternInfo`; translation runs only after success). -/
theorem c9_parse_atomic (pattern : List Char) (props : DecimalFormatProperties)
    (ig : IgnoreRounding) (e : PErr) (hne : pattern ≠ [])
    (herr : consumePattern pattern = .error e) :
    parseToExistingPropertiesImpl pattern props ig = (some e, props) := by
  unfold parseToExistingPropertiesImpl
  rw [if_neg (fun h => hne (List.length_eq_zero.mp h)), herr]

/-- Claim C9, witness: the failing pattern `"0#"` leaves a distinctive
properties value untouched. -/
theorem c9_parse_atomic_witness :
    (("0#".toList) ≠ ([] : List Char)) ∧
    parseToExistingPropertiesImpl ("0#".toList) { magnitudeMultiplier := 7 } .never =
      (some .unexpectedToken, { magnitudeMultiplier := 7 }) :=
  ⟨by decide, c9_parse_atomic _ _ _ _ (by decide) (by rfl)⟩

/-- Claim C10: the magnitude multiplier is computed solely from the positive
subpattern: code 2 for a percent sign, code 3 for a per-mille sign, code 0
otherwise, under every policy; a `%` only in the negative subpattern yields
multiplier 0. -/
theorem c10_magnitude_multiplier :
    (∀ (props0 : DecimalFormatProperties) (ppi : ParsedPatternInfo) (ig : IgnoreRounding),
        (patternInfoToProperties props0 ppi ig).magnitudeMultiplier =
          (if ppi.positive.hasPercentSign then 2
           else if ppi.positive.hasPerMilleSign then 3 else 0)) ∧
    (parseToProperties ("0;0%".toList) .never).map (fun p => p.magnitudeMultiplier) = .ok 0 ∧
    (parseToProperties ("0%".toList) .never).map (fun p => p.magnitudeMultiplier) = .ok 2 ∧
    (parseToProperties ("0‰".toList) .never).map (fun p => p.magnitudeMultiplier) = .ok 3 :=
  ⟨fun _ _ _ => rfl, rfl, rfl, rfl⟩

/-- Mapping a function of the indexed elements over the index range of a
list is mapping over the list. -/
theorem range_map_getD {α β : Type} (l : List α) (d : α) (f : α → β) :
    (List.range l.length).map (fun i => f (l.getD i d)) = l.map f := by
  induction l with
  | nil => rfl
  | cons x xs ih =>
    rw [List.length_cons, List.range_succ_eq_map, List.map_cons, List.map_map]
    simp only [List.getD_cons_zero, List.map_cons]
    refine congrArg _ ?_
    rw [← ih]
    refine List.map_congr_left ?_
    intro i _
    simp [Function.comp]

/-- The index loop of `patternInfoToStringBuilder` renders exactly the base
affix characters with the two substitutions applied. -/
theorem patternInfoToStringBuilder_eq_map (ppi : ParsedPatternInfo) (isPrefix : Bool)
    (signum : Int) (signDisplay : UNumberSignDisplay) (pm : Bool) :
    patternInfoToStringBuilder ppi isPrefix signum signDisplay pm =
      (resolverBaseAffix ppi isPrefix signum signDisplay).map (fun c =>
        let c1 := if plusReplacesMinusSign ppi signum signDisplay ∧ c = '-' then '+' else c
        if pm ∧ c1 = '%' then permilleChar else c1) := by
  unfold patternInfoToStringBuilder resolverBaseAffix
  by_cases hp : resolverPrependSign ppi isPrefix signum signDisplay
  · rw [if_pos hp]
    rw [← range_map_getD ('-' :: getSlice ppi
      (useNegativeAffixPattern ppi signum (plusReplacesMinusSign ppi signum signDisplay))
      isPrefix false) ' ']
    simp only [hp, List.length_cons, if_true, if_pos]
    refine List.map_congr_left ?_
    intro i _
    cases i with
    | zero => simp
    | succ j => simp
  · rw [if_neg hp]
    rw [← range_map_getD (getSlice ppi
      (useNegativeAffixPattern ppi signum (plusReplacesMinusSign ppi signum signDisplay))
      isPrefix false) ' ']
    simp only [hp, if_false, add_zero]
    refine List.map_congr_left ?_
    intro i _
    simp [hp]

/-- Claim C7: in the affix resolver, `+` replaces `-` in the rendered affix
exactly when the sign is non-negative, the policy is always/accounting-always
or (for a strictly positive sign) except-zero/accounting-except-zero, and
the pattern's positive subpattern did not itself declare an explicit `+`:
the internal decision Boolean is equivalent to that condition, and the
rendered output is the base affix with `-`→`+` applied under exactly that
condition (plus the orthogonal `%`→per-mille substitution). -/
theorem c7_plus_replaces_minus (ppi : ParsedPatternInfo) (isPrefix : Bool) (signum : Int)
    (signDisplay : UNumberSignDisplay) (pm : Bool)
    (hsig : signum = -1 ∨ signum = 0 ∨ signum = 1) :
    (plusReplacesMinusSign ppi signum signDisplay = true ↔
      (signum ≠ -1 ∧
        (signDisplay = .always ∨ signDisplay = .accountingAlways ∨
          (signum = 1 ∧ (signDisplay = .exceptZero ∨ signDisplay = .accountingExceptZero))) ∧
        ppi.positive.hasPlusSign = false)) ∧
    patternInfoToStringBuilder ppi isPrefix signum signDisplay pm =
      (resolverBaseAffix ppi isPrefix signum signDisplay).map (fun c =>
        let c1 :=
          if (signum ≠ -1 ∧
              (signDisplay = .always ∨ signDisplay = .accountingAlways ∨
                (signum = 1 ∧
                  (signDisplay = .exceptZero ∨ signDisplay = .accountingExceptZero))) ∧
              ppi.positive.hasPlusSign = false) ∧ c = '-' then '+' else c
        if pm ∧ c1 = '%' then permilleChar else c1) := by
  have hiff : plusReplacesMinusSign ppi signum signDisplay = true ↔
      (signum ≠ -1 ∧
        (signDisplay = .always ∨ signDisplay = .accountingAlways ∨
          (signum = 1 ∧ (signDisplay = .exceptZero ∨ signDisplay = .accountingExceptZero))) ∧
        ppi.positive.hasPlusSign = false) := by
    rcases hsig with rfl | rfl | rfl <;> cases signDisplay <;>
      cases hb : ppi.positive.hasPlusSign <;>
      simp [plusReplacesMinusSign, hb]
  refine ⟨hiff, ?_⟩
  rw [patternInfoToStringBuilder_eq_map]
  refine List.map_congr_left ?_
  intro c _
  by_cases hc : c = '-' <;> by_cases hflag : plusReplacesMinusSign ppi signum signDisplay <;>
    simp_all [hiff.symm]

/-- Claim C7, witness: the theorem applied at a positive sign with the
except-zero policy on the parse of `"x-0"` (the rendered prefix is `+x+`). -/
theorem c7_plus_replaces_minus_witness :
    ((((consumePattern ("x-0".toList)).toOption.getD {}) : ParsedPatternInfo).positive.hasPlusSign
        = false) ∧
    patternInfoToStringBuilder ((consumePattern ("x-0".toList)).toOption.getD {}) true 1
        .exceptZero false = ['+', 'x', '+'] := by
  have h := c7_plus_replaces_minus ((consumePattern ("x-0".toList)).toOption.getD {}) true 1
    .exceptZero false (by right; right; rfl)
  refine ⟨by decide, ?_⟩
  rw [h.2]
  decide

/-- Doubling quotes at most doubles the length. -/
theorem doubleQuotes_length (xs : List Char) : (doubleQuotes xs).length ≤ 2 * xs.length := by
  induction xs with
  | nil => simp [doubleQuotes]
  | cons c rest ih =>
    by_cases h : c = quoteChar <;> simp [doubleQuotes, h] <;> omega

/-- The escaped form of an affix literal is at most twice its length plus
the wrapping quotes. -/
theorem affixEscape_length (s : Option (List Char)) :
    (affixEscape s).length ≤ 2 * optLen s + 2 := by
  rcases s with _ | xs
  · simp [affixEscape, optLen]
  · have hdq := doubleQuotes_length xs
    simp only [affixEscape, optLen, Option.getD_some]
    split_ifs with h1 h2
    · simp [h1]
    · simp only [List.length_cons, List.length_append, List.length_cons, List.length_nil]
      omega
    · omega

/-- The escaped pad specifier contents are bounded by twice the pad string
length plus the wrapping quotes. -/
theorem escapePaddingString_length (s : List Char) :
    (escapePaddingString s).length ≤ 2 * s.length + 2 := by
  unfold escapePaddingString
  by_cases h0 : s.length = 0
  · have : s = [] := List.length_eq_zero.mp h0
    subst this
    simp only [List.length_nil, if_true, kFallbackPaddingString]
    decide
  · have hdq := doubleQuotes_length s
    simp only [h0, if_false]
    split_ifs with h1 h2
    · simp [h2]
    · omega
    · simp only [List.length_cons, List.length_append, List.length_cons, List.length_nil]
      omega

/-- Each magnitude step of the digit loop emits at most two characters. -/
theorem emitDigits_length (ds : List Char) (scale grouping grouping2 : Int) (asd : Bool)
    (mN : Int) (k : Nat) (mag : Int) :
    (emitDigits ds scale grouping grouping2 asd mN k mag).length ≤ 2 * k := by
  induction k generalizing mag with
  | zero => simp [emitDigits]
  | succ n ih =>
    have h := ih (mag - 1)
    simp only [emitDigits, List.length_append, List.length_cons]
    split_ifs <;> simp <;> omega

/-- Inserting into a list adds exactly the inserted length. -/
theorem insertAt_length (xs : List Char) (i : Nat) (ys : List Char) :
    (insertAt xs i ys).length = xs.length + ys.length := by
  simp [insertAt]
  omega

/-- Length and scale bounds for the serializer's digits string: the length
is bounded by the increment's digit count plus its scale plus a constant,
and the scale lies between `-(scale + 100)` and 0, uniformly in the clamped
digit-count fields. -/
theorem serializerDS_bounds (p : DecimalFormatProperties) :
    (serializerDS p).1.length ≤
      (Nat.toDigits 10 p.roundingIncrement.num).length + p.roundingIncrement.scale + 500 ∧
    -((p.roundingIncrement.scale : Int)) - 100 ≤ (serializerDS p).2 ∧
    (serializerDS p).2 ≤ 0 := by
  unfold serializerDS serializerDigits
  have h1 : min p.minimumSignificantDigits 100 ≤ 100 := min_le_right _ _
  have h2 : min p.maximumSignificantDigits 100 ≤ 100 := min_le_right _ _
  have h3 : max (min p.minimumIntegerDigits 100) 0 ≤ 100 :=
    max_le (min_le_right _ _) (by norm_num)
  have h4 : max (min p.minimumFractionDigits 100) 0 ≤ 100 :=
    max_le (min_le_right _ _) (by norm_num)
  have h3' : (0 : Int) ≤ max (min p.minimumIntegerDigits 100) 0 := le_max_right _ _
  have h4' : (0 : Int) ≤ max (min p.minimumFractionDigits 100) 0 := le_max_right _ _
  split_ifs <;>
    simp only [List.length_append, List.length_replicate, List.length_nil] <;>
    refine ⟨by omega, by omega, by omega⟩

/-- The components of the resolved grouping triple are at most 100. -/
theorem serializerGroupingP_le (p : DecimalFormatProperties) :
    (serializerGroupingP p).2.1 ≤ 100 ∧ (serializerGroupingP p).2.2 ≤ 100 := by
  unfold serializerGroupingP serializerGrouping
  have h1 : min p.secondaryGroupingSize 100 ≤ 100 := min_le_right _ _
  have h2 : min p.groupingSize 100 ≤ 100 := min_le_right _ _
  split_ifs <;> constructor <;> simp

/-- The digit core is linearly bounded by the increment data, uniformly in
all clamped size fields. -/
theorem serializerCore_length (p : DecimalFormatProperties) :
    (serializerCore p).length ≤
      2 * (Nat.toDigits 10 p.roundingIncrement.num).length +
        4 * p.roundingIncrement.scale + 1700 := by
  have hemit := emitDigits_length (serializerDS p).1 (serializerDS p).2
    (serializerGroupingP p).1 (serializerGroupingP p).2.2 p.decimalSeparatorAlwaysShown
    (serializerMN p) (serializerM0 p - serializerMN p + 1).toNat (serializerM0 p)
  have hds := serializerDS_bounds p
  have hg := serializerGroupingP_le p
  have hm0 : serializerM0 p ≤ ((serializerDS p).1.length : Int) + 201 := by
    unfold serializerM0
    have := min_le_right p.maximumIntegerDigits 100
    split_ifs <;> simp only [] <;> omega
  have hmN : -((p.roundingIncrement.scale : Int)) - 100 ≤ serializerMN p := by
    unfold serializerMN
    have := min_le_right p.maximumFractionDigits 100
    split_ifs <;> omega
  unfold serializerCore
  omega

/-- The pre-padding string builder contents are linearly bounded by the
affix pattern lengths and the increment data. -/
theorem serializerSB3_length (p : DecimalFormatProperties) :
    (serializerSB3 p).1.length ≤
      optLen p.positivePrefixPattern + 2 * optLen p.positivePrefix +
      optLen p.positiveSuffixPattern + 2 * optLen p.positiveSuffix +
      2 * (Nat.toDigits 10 p.roundingIncrement.num).length +
      4 * p.roundingIncrement.scale + 1810 := by
  have hcore := serializerCore_length p
  have he1 := affixEscape_length p.positivePrefix
  have he2 := affixEscape_length p.positiveSuffix
  have hexp : (min p.minimumExponentDigits 100).toNat ≤ 100 := by
    have := min_le_right p.minimumExponentDigits 100
    omega
  unfold serializerSB3
  simp only [List.length_append]
  simp only [optLen] at he1 he2 ⊢
  split_ifs <;> simp only [List.length_cons, List.length_append, List.length_replicate,
    List.length_nil] <;> omega

/-- Padding resolution adds at most the fill (bounded by the clamped format
width) and the escaped pad specifier. -/
theorem serializerPadded_length (p : DecimalFormatProperties) :
    (serializerPadded p).1.length ≤
      (serializerSB3 p).1.length + 2 * optLen p.padString + 103 := by
  have hesc := escapePaddingString_length (p.padString.getD [])
  simp only [serializerPadded]
  split_ifs with h
  · have hfill : (min p.formatWidth 100 - ((serializerSB3 p).1.length : Int)).toNat ≤ 100 := by
      have := min_le_right p.formatWidth 100
      omega
    rcases hpp : p.padPosition with _ | pos
    · simp [hpp] at h
    · cases pos <;>
        simp only [hpp, insertAt_length, List.length_cons, List.length_append,
          List.length_replicate, optLen] <;> omega
  · simp
    omega

/-- Claim C4: the serializer is a total function of the specification (it is
a plain Lean function, returning a pattern text and never an error), every
size-like field is clamped to the fixed bound 100 before use — serializing
the field-wise clamped specification yields the identical text — and the
output length is bounded by an expression in the affix/pad string lengths
and the rounding-increment digits alone, independent of how large the
size-like fields (grouping sizes, digit counts, padding width, exponent
digits) are. -/
theorem c4_serializer_total_clamped_bounded (p : DecimalFormatProperties) :
    propertiesToPatternString (clampProps p) = propertiesToPatternString p ∧
    (propertiesToPatternString p).length ≤
      8 * (optLen p.positivePrefixPattern + optLen p.positivePrefix +
        optLen p.positiveSuffixPattern + optLen p.positiveSuffix +
        optLen p.negativePrefixPattern + optLen p.negativePrefix +
        optLen p.negativeSuffixPattern + optLen p.negativeSuffix +
        optLen p.padString +
        (Nat.toDigits 10 p.roundingIncrement.num).length + p.roundingIncrement.scale) +
      8000 := by
  constructor
  · have hclamp : ∀ x : Int, min (min x 100) 100 = min x 100 := by
      intro x
      rw [min_assoc, min_self]
    simp only [propertiesToPatternString, serializerPadded, serializerSB3, serializerCore,
      serializerM0, serializerMN, serializerDS, serializerGroupingP, clampProps, hclamp]
  · have hsb3 := serializerSB3_length p
    have hpad := serializerPadded_length p
    have hne1 := affixEscape_length p.negativePrefix
    have hne2 := affixEscape_length p.negativeSuffix
    have htake : ((((serializerPadded p).1.drop (serializerPadded p).2.1).take
        ((serializerPadded p).2.2 - (serializerPadded p).2.1)).length ≤
        (serializerPadded p).1.length) := by
      simp only [List.length_take, List.length_drop]
      omega
    simp only [propertiesToPatternString]
    split_ifs <;>
      simp only [List.length_append, List.length_cons, optLen] at * <;> omega

/-! ### Localized-symbol conversion round trip (claim C6) -/

theorem swapChar_invol (c : Char) : swapChar (swapChar c) = c := by
  simp only [swapChar]
  split_ifs with h1 h2 <;> simp_all

theorem swapChar_mem_iff (c : Char) : swapChar c ∈ swapKeys ↔ c ∈ swapKeys := by
  by_cases h1 : c = '.'
  · subst h1; decide
  · by_cases h2 : c = ','
    · subst h2; decide
    · simp only [swapChar, h1, h2, if_false]

theorem swapChar_ne_quote (c : Char) (h : c ≠ quoteChar) : swapChar c ≠ quoteChar := by
  by_cases h1 : c = '.'
  · subst h1; decide
  · by_cases h2 : c = ','
    · subst h2; decide
    · simpa only [swapChar, h1, h2, if_false] using h

theorem mem_swapKeysRev_iff (c : Char) : c ∈ swapKeysRev ↔ c ∈ swapKeys := by
  constructor <;> intro h <;> fin_cases h <;> decide

theorem swapChar_any_true (c : Char) :
    (swapKeys.any (fun k => swapChar k == c)) = decide (c ∈ swapKeys) := by
  by_cases hc : c ∈ swapKeys
  · rw [decide_eq_true hc]
    fin_cases hc <;> decide
  · rw [decide_eq_false hc]
    refine List.any_eq_false.mpr ?_
    intro k hk
    simp only [beq_iff_eq]
    intro heq
    exact hc (heq ▸ (swapChar_mem_iff k).mpr hk)

theorem swapChar_any_rev (c : Char) :
    (swapKeysRev.any (fun k => swapChar k == c)) = decide (c ∈ swapKeys) := by
  by_cases hc : c ∈ swapKeys
  · rw [decide_eq_true hc]
    fin_cases hc <;> decide
  · rw [decide_eq_false hc]
    refine List.any_eq_false.mpr ?_
    intro k hk
    simp only [beq_iff_eq]
    intro heq
    exact hc (heq ▸ (swapChar_mem_iff k).mpr ((mem_swapKeysRev_iff k).mp hk))


theorem mkTable_swap_true_eq :
    mkTable swapSymbols true = swapKeys.map (fun k => ([k], [swapChar k])) := by rfl

theorem mkTable_swap_false_eq :
    mkTable swapSymbols false = swapKeysRev.map (fun k => ([k], [swapChar k])) := by rfl

theorem findTableMatch_keylist (keys : List Char) (c : Char) (rest : List Char) :
    findTableMatch (keys.map (fun k => ([k], [swapChar k]))) (c :: rest) =
      if c ∈ keys then some ([c], [swapChar c]) else none := by
  induction keys with
  | nil => simp [findTableMatch]
  | cons k ks ih =>
    simp only [List.map_cons, findTableMatch, startsWithToken, Bool.and_true, List.mem_cons]
    by_cases hck : k = c
    · subst hck
      simp
    · simp only [beq_iff_eq, hck, if_false, ih, Ne.symm hck, false_or]

theorem matchesOutputSide_keylist (keys : List Char) (c : Char) (rest : List Char) :
    matchesOutputSide (keys.map (fun k => ([k], [swapChar k]))) (c :: rest) =
      keys.any (fun k => swapChar k == c) := by
  induction keys with
  | nil => rfl
  | cons k ks ih =>
    simp only [List.map_cons, matchesOutputSide, List.any_cons, startsWithToken,
      Bool.and_true] at *
    rw [ih]

theorem findTableMatch_swap_true (c : Char) (rest : List Char) :
    findTableMatch (mkTable swapSymbols true) (c :: rest) =
      if c ∈ swapKeys then some ([c], [swapChar c]) else none := by
  rw [mkTable_swap_true_eq, findTableMatch_keylist]

theorem findTableMatch_swap_false (c : Char) (rest : List Char) :
    findTableMatch (mkTable swapSymbols false) (c :: rest) =
      if c ∈ swapKeys then some ([c], [swapChar c]) else none := by
  rw [mkTable_swap_false_eq, findTableMatch_keylist]
  by_cases h : c ∈ swapKeys <;> simp [h, mem_swapKeysRev_iff c]

theorem matchesOutputSide_swap_true (c : Char) (rest : List Char) :
    matchesOutputSide (mkTable swapSymbols true) (c :: rest) = decide (c ∈ swapKeys) := by
  rw [mkTable_swap_true_eq, matchesOutputSide_keylist, swapChar_any_true]

theorem matchesOutputSide_swap_false (c : Char) (rest : List Char) :
    matchesOutputSide (mkTable swapSymbols false) (c :: rest) = decide (c ∈ swapKeys) := by
  rw [mkTable_swap_false_eq, matchesOutputSide_keylist, swapChar_any_rev]

theorem convertLoop_swap_sim (fuel : Nat) :
    ∀ (sF : Nat) (input out : List Char),
      (sF = 0 ∨ sF = 1 ∨ sF = 2 ∨ sF = 3) →
      convertLoop (mkTable swapSymbols true) fuel sF input = .ok out →
      ∀ gFuel, out.length ≤ gFuel →
        convertLoop (mkTable swapSymbols false) gFuel (if sF = 3 then 2 else sF) out =
          .ok ((if sF = 3 then [quoteChar] else []) ++ input) := by
  induction fuel with
  | zero =>
    intro sF input out hs h gFuel hg
    cases input with
    | cons c rest => simp [convertLoop] at h
    | nil =>
      rcases hs with rfl | rfl | rfl | rfl
      · simp only [convertLoop] at h
        simp at h
        subst h
        simp [convertLoop]
      · simp [convertLoop] at h
      · simp [convertLoop] at h
      · simp only [convertLoop] at h
        simp at h
        subst h
        simp only [List.length_singleton] at hg
        cases gFuel with
        | zero => omega
        | succ g => simp [convertLoop]
  | succ n ih =>
    intro sF input out hs h gFuel hg
    cases input with
    | nil =>
      rcases hs with rfl | rfl | rfl | rfl
      · simp only [convertLoop] at h
        simp at h
        subst h
        simp [convertLoop]
      · simp [convertLoop] at h
      · simp [convertLoop] at h
      · simp only [convertLoop] at h
        simp at h
        subst h
        simp only [List.length_singleton] at hg
        cases gFuel with
        | zero => omega
        | succ g => simp [convertLoop]
    | cons c rest =>
      by_cases hcq : c = quoteChar
      · subst hcq
        rcases hs with rfl | rfl | rfl | rfl
        · -- F state 0 on quote: emit the quote, enter state 1.
          simp [convertLoop] at h
          cases hrec : convertLoop (mkTable swapSymbols true) n 1 rest with
          | error e => rw [hrec] at h; simp [Except.map] at h
          | ok o1 =>
            rw [hrec] at h
            simp [Except.map] at h
            subst h
            cases gFuel with
            | zero => simp at hg
            | succ g =>
              have hI := ih 1 rest o1 (by omega) hrec g (by simp at hg; omega)
              simp at hI
              simp [convertLoop, hI, Except.map]
        · -- F state 1 on quote: emit the quote, back to state 0.
          simp [convertLoop] at h
          cases hrec : convertLoop (mkTable swapSymbols true) n 0 rest with
          | error e => rw [hrec] at h; simp [Except.map] at h
          | ok o1 =>
            rw [hrec] at h
            simp [Except.map] at h
            subst h
            cases gFuel with
            | zero => simp at hg
            | succ g =>
              have hI := ih 0 rest o1 (by omega) hrec g (by simp at hg; omega)
              simp at hI
              simp [convertLoop, hI, Except.map]
        · -- F state 2 on quote: emit nothing, enter state 3 (pending quote).
          simp [convertLoop] at h
          have hI := ih 3 rest out (by omega) h gFuel hg
          simp at hI ⊢
          exact hI
        · -- F state 3 on quote: emit two quotes, enter state 1.
          simp [convertLoop] at h
          cases hrec : convertLoop (mkTable swapSymbols true) n 1 rest with
          | error e => rw [hrec] at h; simp [Except.map] at h
          | ok o1 =>
            rw [hrec] at h
            simp [Except.map] at h
            subst h
            cases gFuel with
            | zero => simp at hg
            | succ g =>
              cases g with
              | zero => simp at hg
              | succ g2 =>
                have hI := ih 1 rest o1 (by omega) hrec g2 (by simp at hg; omega)
                simp at hI
                simp [convertLoop, hI, Except.map]
      · -- c is not a quote
        rcases hs with rfl | rfl | rfl | rfl
        · -- F state 0
          by_cases hk : c ∈ swapKeys
          · have hsq : swapChar c ≠ quoteChar := swapChar_ne_quote c hcq
            have hkG : swapChar c ∈ swapKeys := (swapChar_mem_iff c).mpr hk
            simp [convertLoop, hcq, findTableMatch_swap_true, hk] at h
            cases hrec : convertLoop (mkTable swapSymbols true) n 0 rest with
            | error e => rw [hrec] at h; simp [Except.map] at h
            | ok o1 =>
              rw [hrec] at h
              simp [Except.map] at h
              subst h
              cases gFuel with
              | zero => simp at hg
              | succ g =>
                have hI := ih 0 rest o1 (by omega) hrec g (by simp at hg; omega)
                simp at hI
                simp [convertLoop, hsq, findTableMatch_swap_false, hkG,
                  swapChar_invol, hI, Except.map]
          · simp [convertLoop, hcq, findTableMatch_swap_true, hk,
              matchesOutputSide_swap_true] at h
            cases hrec : convertLoop (mkTable swapSymbols true) n 0 rest with
            | error e => rw [hrec] at h; simp [Except.map] at h
            | ok o1 =>
              rw [hrec] at h
              simp [Except.map] at h
              subst h
              cases gFuel with
              | zero => simp at hg
              | succ g =>
                have hI := ih 0 rest o1 (by omega) hrec g (by simp at hg; omega)
                simp at hI
                simp [convertLoop, hcq, findTableMatch_swap_false, hk,
                  matchesOutputSide_swap_false, hI, Except.map]
        · -- F state 1: verbatim, to state 2
          simp [convertLoop, hcq] at h
          cases hrec : convertLoop (mkTable swapSymbols true) n 2 rest with
          | error e => rw [hrec] at h; simp [Except.map] at h
          | ok o1 =>
            rw [hrec] at h
            simp [Except.map] at h
            subst h
            cases gFuel with
            | zero => simp at hg
            | succ g =>
              have hI := ih 2 rest o1 (by omega) hrec g (by simp at hg; omega)
              simp at hI
              simp [convertLoop, hcq, hI, Except.map]
        · -- F state 2: verbatim, stay in state 2
          simp [convertLoop, hcq] at h
          cases hrec : convertLoop (mkTable swapSymbols true) n 2 rest with
          | error e => rw [hrec] at h; simp [Except.map] at h
          | ok o1 =>
            rw [hrec] at h
            simp [Except.map] at h
            subst h
            cases gFuel with
            | zero => simp at hg
            | succ g =>
              have hI := ih 2 rest o1 (by omega) hrec g (by simp at hg; omega)
              simp at hI
              simp [convertLoop, hcq, hI, Except.map]
        · -- F state 3
          by_cases hk : c ∈ swapKeys
          · have hsq : swapChar c ≠ quoteChar := swapChar_ne_quote c hcq
            have hkG : swapChar c ∈ swapKeys := (swapChar_mem_iff c).mpr hk
            simp [convertLoop, hcq, findTableMatch_swap_true, hk] at h
            cases hrec : convertLoop (mkTable swapSymbols true) n 0 rest with
            | error e => rw [hrec] at h; simp [Except.map] at h
            | ok o1 =>
              rw [hrec] at h
              simp [Except.map] at h
              subst h
              cases gFuel with
              | zero => simp at hg
              | succ g =>
                cases g with
                | zero => simp at hg
                | succ g2 =>
                  have hI := ih 0 rest o1 (by omega) hrec g2 (by simp at hg; omega)
                  simp at hI
                  simp [convertLoop, hsq, findTableMatch_swap_false, hkG,
                    swapChar_invol, hI, Except.map]
          · simp [convertLoop, hcq, findTableMatch_swap_true, hk,
              matchesOutputSide_swap_true] at h
            cases hrec : convertLoop (mkTable swapSymbols true) n 0 rest with
            | error e => rw [hrec] at h; simp [Except.map] at h
            | ok o1 =>
              rw [hrec] at h
              simp [Except.map] at h
              subst h
              cases gFuel with
              | zero => simp at hg
              | succ g =>
                cases g with
                | zero => simp at hg
                | succ g2 =>
                  have hI := ih 0 rest o1 (by omega) hrec g2 (by simp at hg; omega)
                  simp at hI
                  simp [convertLoop, hcq, findTableMatch_swap_false, hk,
                    matchesOutputSide_swap_false, hI, Except.map]

/-- Claim C6: converting a standard-syntax pattern text to localized form
under the swap symbol table (decimal separator `,`, grouping separator `.`)
and back reproduces the original text exactly, whenever the forward
conversion succeeds. -/
theorem c6_localized_roundtrip (input out : List Char)
    (h : convertLocalized input swapSymbols true = .ok out) :
    convertLocalized out swapSymbols false = .ok input := by
  unfold convertLocalized at h ⊢
  have hsim := convertLoop_swap_sim input.length 0 input out (by omega) h out.length
    (le_refl _)
  simpa using hsim

/-- Claim C6, witness: the conversion of `"#,##0.0#"` localizes to
`"#.##0,0#"` and converts back exactly. -/
theorem c6_localized_roundtrip_witness :
    convertLocalized ("#,##0.0#".toList) swapSymbols true = .ok ("#.##0,0#".toList) ∧
    convertLocalized ("#.##0,0#".toList) swapSymbols false = .ok ("#,##0.0#".toList) :=
  ⟨by rfl, c6_localized_roundtrip _ _ (by rfl)⟩




theorem segNeutral_nil : segNeutral [] := fun _ => rfl

theorem segNeutral_append {a b : List Char} (ha : segNeutral a) (hb : segNeutral b) :
    segNeutral (a ++ b) := by
  intro t
  rw [List.append_assoc, ha, hb]

theorem segNeutral_single (c : Char) (h1 : c ≠ ';') (h2 : c ≠ quoteChar) (h3 : c ≠ '*') :
    segNeutral [c] := by
  intro t
  simp [freeSemicolonSplit, h1, h2, h3]

/-- The body of a quoted literal is skipped by the scanner from the
inside-quote state (1) and from the inside-quoted-pad state (3), landing
back in the normal state. -/
theorem consumeQuoted_scan (xs : List Char) :
    ∀ mid rest, consumeQuoted xs = .ok (mid, rest) →
      xs = mid ++ rest ∧
      (∀ t, freeSemicolonSplit (mid ++ t) 1 = freeSemicolonSplit t 0) ∧
      (∀ t, freeSemicolonSplit (mid ++ t) 3 = freeSemicolonSplit t 0) := by
  induction xs with
  | nil => intro mid rest h; simp [consumeQuoted] at h
  | cons c rest0 ih =>
    intro mid rest h
    by_cases hc : c = quoteChar
    · subst hc
      simp [consumeQuoted] at h
      obtain ⟨rfl, rfl⟩ := h
      refine ⟨rfl, ?_, ?_⟩ <;> intro t <;> simp [freeSemicolonSplit]
    · simp [consumeQuoted, hc] at h
      cases hrec : consumeQuoted rest0 with
      | error e => rw [hrec] at h; simp at h
      | ok v =>
        obtain ⟨mid0, rest1⟩ := v
        rw [hrec] at h
        simp only [Except.ok.injEq, Prod.mk.injEq] at h
        obtain ⟨rfl, rfl⟩ := h
        obtain ⟨he, hs1, hs3⟩ := ih _ _ hrec
        subst he
        refine ⟨by simp, ?_, ?_⟩ <;> intro t <;>
          simp only [List.cons_append, freeSemicolonSplit, List.append_assoc] <;>
          simp [hc, hs1 t, hs3 t]

/-- A single literal (as consumed for a pad character) is skipped by the
scanner from the expecting-pad-character state (2), landing in the normal
state, whatever the literal is. -/
theorem consumeLiteral_scan (xs : List Char) :
    ∀ lit rest, consumeLiteral xs = .ok (lit, rest) →
      xs = lit ++ rest ∧
      (∀ t, freeSemicolonSplit (lit ++ t) 2 = freeSemicolonSplit t 0) := by
  intro lit rest h
  cases xs with
  | nil => simp [consumeLiteral] at h
  | cons c rest0 =>
    by_cases hc : c = quoteChar
    · subst hc
      simp [consumeLiteral] at h
      cases hrec : consumeQuoted rest0 with
      | error e => rw [hrec] at h; simp at h
      | ok v =>
        obtain ⟨mid0, rest1⟩ := v
        rw [hrec] at h
        simp only [Except.ok.injEq, Prod.mk.injEq] at h
        obtain ⟨rfl, rfl⟩ := h
        obtain ⟨he, _, hs3⟩ := consumeQuoted_scan rest0 _ _ hrec
        subst he
        refine ⟨by simp, ?_⟩
        intro t
        simp only [List.cons_append, freeSemicolonSplit, List.append_assoc]
        simp [hs3 t]
    · simp [consumeLiteral, hc] at h
      obtain ⟨rfl, rfl⟩ := h
      refine ⟨rfl, ?_⟩
      intro t
      simp [freeSemicolonSplit, hc]

theorem quote_ne_semi : quoteChar ≠ ';' := by decide

theorem quote_ne_star : quoteChar ≠ '*' := by decide

/-- An unquoted affix literal character is neither `;` nor `*` (both are
break characters). -/
theorem affix_nonbreak_facts (c : Char) (hb : isBreakChar c = false) :
    c ≠ ';' ∧ c ≠ '*' := by
  simp [isBreakChar] at hb
  refine ⟨fun h => ?_, fun h => ?_⟩ <;> subst h <;> revert hb <;> decide

/-- The affix automaton's consumed slice is scanner-neutral (outside-quote
entry) resp. skipped from the inside-quote state. -/
theorem consumeAffixLoop_scan (xs : List Char) :
    ∀ (q : Bool) sub sub' cs rest,
      consumeAffixLoop xs q sub = .ok (sub', cs, rest) →
      xs = cs ++ rest ∧
      ∀ t, freeSemicolonSplit (cs ++ t) (if q then 1 else 0) = freeSemicolonSplit t 0 := by
  induction xs with
  | nil =>
    intro q sub sub' cs rest h
    cases q with
    | false =>
      simp [consumeAffixLoop] at h
      obtain ⟨rfl, rfl⟩ := h.2
      exact ⟨rfl, fun t => by simp⟩
    | true => simp [consumeAffixLoop] at h
  | cons c rest0 ih =>
    intro q sub sub' cs rest h
    cases q with
    | false =>
      by_cases hb : isBreakChar c
      · simp [consumeAffixLoop, hb] at h
        obtain ⟨rfl, rfl⟩ := h.2
        exact ⟨rfl, fun t => by simp⟩
      · by_cases hc : c = quoteChar
        · subst hc
          simp [consumeAffixLoop, hb] at h
          cases hrec : consumeAffixLoop rest0 true sub with
          | error e => rw [hrec] at h; simp at h
          | ok v =>
            obtain ⟨s1, cs1, rest1⟩ := v
            rw [hrec] at h
            simp only [Except.ok.injEq, Prod.mk.injEq] at h
            obtain ⟨rfl, rfl, rfl⟩ := h
            obtain ⟨he, hs⟩ := ih _ _ _ _ _ hrec
            subst he
            refine ⟨by simp, ?_⟩
            intro t
            have hcs := hs t
            simp at hcs
            simp only [List.cons_append, List.append_assoc, freeSemicolonSplit]
            simp [quote_ne_semi, hcs]
        · simp [consumeAffixLoop, hb, hc] at h
          cases hrec : consumeAffixLoop rest0 false (affixFlag sub c) with
          | error e => rw [hrec] at h; simp at h
          | ok v =>
            obtain ⟨s1, cs1, rest1⟩ := v
            rw [hrec] at h
            simp only [Except.ok.injEq, Prod.mk.injEq] at h
            obtain ⟨rfl, rfl, rfl⟩ := h
            obtain ⟨he, hs⟩ := ih _ _ _ _ _ hrec
            subst he
            obtain ⟨hns, hnp⟩ := affix_nonbreak_facts c (by simpa using hb)
            refine ⟨by simp, ?_⟩
            intro t
            have hcs := hs t
            simp at hcs
            simp only [List.cons_append, List.append_assoc, freeSemicolonSplit]
            simp [hns, hc, hnp, hcs]
    | true =>
      by_cases hc : c = quoteChar
      · subst hc
        simp [consumeAffixLoop] at h
        cases hrec : consumeAffixLoop rest0 false sub with
        | error e => rw [hrec] at h; simp at h
        | ok v =>
          obtain ⟨s1, cs1, rest1⟩ := v
          rw [hrec] at h
          simp only [Except.ok.injEq, Prod.mk.injEq] at h
          obtain ⟨rfl, rfl, rfl⟩ := h
          obtain ⟨he, hs⟩ := ih _ _ _ _ _ hrec
          subst he
          refine ⟨by simp, ?_⟩
          intro t
          have hcs := hs t
          simp at hcs
          simp only [List.cons_append, List.append_assoc, freeSemicolonSplit]
          simp [hcs]
      · simp [consumeAffixLoop, hc] at h
        cases hrec : consumeAffixLoop rest0 true sub with
        | error e => rw [hrec] at h; simp at h
        | ok v =>
          obtain ⟨s1, cs1, rest1⟩ := v
          rw [hrec] at h
          simp only [Except.ok.injEq, Prod.mk.injEq] at h
          obtain ⟨rfl, rfl, rfl⟩ := h
          obtain ⟨he, hs⟩ := ih _ _ _ _ _ hrec
          subst he
          refine ⟨by simp, ?_⟩
          intro t
          have hcs := hs t
          simp at hcs
          simp only [List.cons_append, List.append_assoc, freeSemicolonSplit]
          simp [hc, hcs]

theorem scanEq_refl (xs : List Char) : scanEq xs xs := fun _ => rfl

theorem scanEq_trans {a b c : List Char} (h1 : scanEq a b) (h2 : scanEq b c) :
    scanEq a c := fun t => (h1 t).trans (h2 t)

theorem scanEq_cons (c : Char) (h1 : c ≠ ';') (h2 : c ≠ quoteChar) (h3 : c ≠ '*')
    {xs rest : List Char} (h : scanEq xs rest) : scanEq (c :: xs) rest := by
  intro t
  simp only [List.cons_append, freeSemicolonSplit]
  simp [h1, h2, h3, h t]

theorem digit_nonspecial (c : Char) (h : '0' ≤ c ∧ c ≤ '9') :
    c ≠ ';' ∧ c ≠ quoteChar ∧ c ≠ '*' := by
  refine ⟨fun he => ?_, fun he => ?_, fun he => ?_⟩ <;> subst he <;> revert h <;> decide

theorem consumeIntegerLoop_scan (xs : List Char) :
    ∀ r r2 rest, consumeIntegerLoop r xs = .ok (r2, rest) → scanEq xs rest := by
  induction xs with
  | nil =>
    intro r r2 rest h
    simp [consumeIntegerLoop] at h
    obtain ⟨-, rfl⟩ := h
    exact scanEq_refl []
  | cons c rest0 ih =>
    intro r r2 rest h
    simp only [consumeIntegerLoop] at h
    by_cases h1 : c = ','
    · rw [if_pos h1] at h
      subst h1
      exact scanEq_cons _ (by decide) (by decide) (by decide) (ih _ _ _ h)
    · rw [if_neg h1] at h
      by_cases h2 : c = '#'
      · rw [if_pos h2] at h
        subst h2
        split at h
        · exact absurd h (by simp)
        · exact scanEq_cons _ (by decide) (by decide) (by decide) (ih _ _ _ h)
      · rw [if_neg h2] at h
        by_cases h3 : c = '@'
        · rw [if_pos h3] at h
          subst h3
          split at h
          · exact absurd h (by simp)
          · split at h
            · exact absurd h (by simp)
            · exact scanEq_cons _ (by decide) (by decide) (by decide) (ih _ _ _ h)
        · rw [if_neg h3] at h
          by_cases h4 : '0' ≤ c ∧ c ≤ '9'
          · rw [if_pos h4] at h
            obtain ⟨hs, hq, hp⟩ := digit_nonspecial c h4
            split at h
            · exact absurd h (by simp)
            · exact scanEq_cons _ hs hq hp (ih _ _ _ h)
          · rw [if_neg h4] at h
            simp only [Except.ok.injEq, Prod.mk.injEq] at h
            obtain ⟨-, rfl⟩ := h
            exact scanEq_refl _

theorem consumeIntegerFormat_scan (r : ParsedSubpatternInfo) (xs : List Char)
    (r2 : ParsedSubpatternInfo) (rest : List Char)
    (h : consumeIntegerFormat r xs = .ok (r2, rest)) : scanEq xs rest := by
  cases hL : consumeIntegerLoop r xs with
  | error e => simp [consumeIntegerFormat, hL] at h
  | ok v =>
    obtain ⟨r3, rest3⟩ := v
    simp only [consumeIntegerFormat, hL] at h
    split at h
    · exact absurd h (by simp)
    · split at h
      · exact absurd h (by simp)
      · simp only [Except.ok.injEq, Prod.mk.injEq] at h
        obtain ⟨-, rfl⟩ := h
        exact consumeIntegerLoop_scan xs _ _ _ hL

theorem consumeFractionLoop_scan (xs : List Char) :
    ∀ r z r2 rest, consumeFractionLoop r z xs = .ok (r2, rest) → scanEq xs rest := by
  induction xs with
  | nil =>
    intro r z r2 rest h
    simp [consumeFractionLoop] at h
    obtain ⟨-, rfl⟩ := h
    exact scanEq_refl []
  | cons c rest0 ih =>
    intro r z r2 rest h
    simp only [consumeFractionLoop] at h
    by_cases h1 : c = '#'
    · rw [if_pos h1] at h
      subst h1
      exact scanEq_cons _ (by decide) (by decide) (by decide) (ih _ _ _ _ h)
    · rw [if_neg h1] at h
      by_cases h2 : '0' ≤ c ∧ c ≤ '9'
      · rw [if_pos h2] at h
        obtain ⟨hs, hq, hp⟩ := digit_nonspecial c h2
        split at h
        · exact absurd h (by simp)
        · split at h
          · exact scanEq_cons _ hs hq hp (ih _ _ _ _ h)
          · exact scanEq_cons _ hs hq hp (ih _ _ _ _ h)
      · rw [if_neg h2] at h
        simp only [Except.ok.injEq, Prod.mk.injEq] at h
        obtain ⟨-, rfl⟩ := h
        exact scanEq_refl _

theorem consumeFormat_scan (r : ParsedSubpatternInfo) (xs : List Char)
    (r2 : ParsedSubpatternInfo) (rest : List Char)
    (h : consumeFormat r xs = .ok (r2, rest)) : scanEq xs rest := by
  cases hI : consumeIntegerFormat r xs with
  | error e => simp [consumeFormat, hI] at h
  | ok v =>
    obtain ⟨r3, rest3⟩ := v
    have hs1 := consumeIntegerFormat_scan r xs r3 rest3 hI
    simp only [consumeFormat, hI] at h
    split at h
    · rename_i rest2
      have hs2 := consumeFractionLoop_scan rest2 _ _ _ _ h
      exact scanEq_trans hs1 (scanEq_cons _ (by decide) (by decide) (by decide) hs2)
    · simp only [Except.ok.injEq, Prod.mk.injEq] at h
      obtain ⟨-, rfl⟩ := h
      exact hs1

theorem consumeExponentZeros_scan (xs : List Char) :
    ∀ r, scanEq xs (consumeExponentZeros r xs).2 := by
  induction xs with
  | nil => intro r; exact scanEq_refl []
  | cons c rest0 ih =>
    intro r
    by_cases hc : c = '0'
    · subst hc
      exact scanEq_cons _ (by decide) (by decide) (by decide) (ih _)
    · have he : consumeExponentZeros r (c :: rest0) = (r, c :: rest0) := by
        rw [consumeExponentZeros.eq_def]
        split
        · rename_i rest1 heq
          injection heq with hx _
          exact absurd hx hc
        · rfl
      rw [he]
      exact scanEq_refl _

theorem scan_of_zeros_eq {xs : List Char} (r : ParsedSubpatternInfo)
    {r2 : ParsedSubpatternInfo} {rest : List Char}
    (h : (Except.ok (consumeExponentZeros r xs) : Except PErr (ParsedSubpatternInfo × List Char)) = .ok (r2, rest)) :
    scanEq xs rest := by
  have h2 : consumeExponentZeros r xs = (r2, rest) := Except.ok.inj h
  have := consumeExponentZeros_scan xs r
  rw [h2] at this
  exact this

theorem consumeExponent_scan (r : ParsedSubpatternInfo) (xs : List Char)
    (r2 : ParsedSubpatternInfo) (rest : List Char)
    (h : consumeExponent r xs = .ok (r2, rest)) : scanEq xs rest := by
  rw [consumeExponent.eq_def] at h
  split at h
  · rename_i rest0
    split at h
    · exact absurd h (by simp)
    · split at h
      · rename_i rest2
        exact scanEq_cons _ (by decide) (by decide) (by decide)
          (scanEq_cons _ (by decide) (by decide) (by decide) (scan_of_zeros_eq _ h))
      · exact scanEq_cons _ (by decide) (by decide) (by decide) (scan_of_zeros_eq _ h)
  · simp only [Except.ok.injEq, Prod.mk.injEq] at h
    obtain ⟨-, rfl⟩ := h
    exact scanEq_refl _

theorem consumePadding_scan (r : ParsedSubpatternInfo) (loc : PadPosition) (xs : List Char)
    (r2 : ParsedSubpatternInfo) (rest : List Char)
    (h : consumePadding r loc xs = .ok (r2, rest)) : scanEq xs rest := by
  rw [consumePadding.eq_def] at h
  split at h
  · rename_i rest0
    split at h
    · exact absurd h (by simp)
    · cases hL : consumeLiteral rest0 with
      | error e => rw [hL] at h; exact absurd h (by simp)
      | ok v =>
        obtain ⟨lit, r3⟩ := v
        rw [hL] at h
        simp only [Except.ok.injEq, Prod.mk.injEq] at h
        obtain ⟨-, rfl⟩ := h
        obtain ⟨hsplit, hlit⟩ := consumeLiteral_scan rest0 _ _ hL
        subst hsplit
        intro t
        have := hlit (r3 ++ t)
        simp only [List.cons_append, List.append_assoc, freeSemicolonSplit]
        simpa using this
  · simp only [Except.ok.injEq, Prod.mk.injEq] at h
    obtain ⟨-, rfl⟩ := h
    exact scanEq_refl _

theorem consumeAffix_scan (sub : ParsedSubpatternInfo) (xs : List Char)
    (s : ParsedSubpatternInfo) (cs rest : List Char)
    (h : consumeAffix sub xs = .ok (s, cs, rest)) : scanEq xs rest := by
  obtain ⟨he, hs⟩ := consumeAffixLoop_scan xs false sub s cs rest h
  subst he
  intro t
  rw [List.append_assoc]
  have := hs (rest ++ t)
  simpa using this

theorem consumeSubpattern_scan (sub : ParsedSubpatternInfo) (xs : List Char)
    (s : ParsedSubpatternInfo) (rest : List Char)
    (h : consumeSubpattern sub xs = .ok (s, rest)) : scanEq xs rest := by
  unfold consumeSubpattern at h
  simp only [bind, Except.bind] at h
  cases h1 : consumePadding sub .beforePrefix xs with
  | error e => rw [h1] at h; exact absurd h (by simp)
  | ok v1 =>
  obtain ⟨s1, xs1⟩ := v1
  rw [h1] at h
  simp only [bind, Except.bind] at h
  have e1 := consumePadding_scan sub .beforePrefix xs s1 xs1 h1
  cases h2 : consumeAffix s1 xs1 with
  | error e => rw [h2] at h; exact absurd h (by simp)
  | ok v2 =>
  obtain ⟨s2, pfx, xs2⟩ := v2
  rw [h2] at h
  simp only [bind, Except.bind] at h
  have e2 := consumeAffix_scan s1 xs1 s2 pfx xs2 h2
  cases h3 : consumePadding { s2 with prefixChars := pfx } .afterPrefix xs2 with
  | error e => rw [h3] at h; exact absurd h (by simp)
  | ok v3 =>
  obtain ⟨s3, xs3⟩ := v3
  rw [h3] at h
  simp only [bind, Except.bind] at h
  have e3 := consumePadding_scan _ .afterPrefix xs2 s3 xs3 h3
  cases h4 : consumeFormat s3 xs3 with
  | error e => rw [h4] at h; exact absurd h (by simp)
  | ok v4 =>
  obtain ⟨s4, xs4⟩ := v4
  rw [h4] at h
  simp only [bind, Except.bind] at h
  have e4 := consumeFormat_scan s3 xs3 s4 xs4 h4
  cases h5 : consumeExponent s4 xs4 with
  | error e => rw [h5] at h; exact absurd h (by simp)
  | ok v5 =>
  obtain ⟨s5, xs5⟩ := v5
  rw [h5] at h
  simp only [bind, Except.bind] at h
  have e5 := consumeExponent_scan s4 xs4 s5 xs5 h5
  cases h6 : consumePadding s5 .beforeSuffix xs5 with
  | error e => rw [h6] at h; exact absurd h (by simp)
  | ok v6 =>
  obtain ⟨s6, xs6⟩ := v6
  rw [h6] at h
  simp only [bind, Except.bind] at h
  have e6 := consumePadding_scan s5 .beforeSuffix xs5 s6 xs6 h6
  cases h7 : consumeAffix s6 xs6 with
  | error e => rw [h7] at h; exact absurd h (by simp)
  | ok v7 =>
  obtain ⟨s7, sfx, xs7⟩ := v7
  rw [h7] at h
  simp only [bind, Except.bind] at h
  have e7 := consumeAffix_scan s6 xs6 s7 sfx xs7 h7
  cases h8 : consumePadding { s7 with suffixChars := sfx } .afterSuffix xs7 with
  | error e => rw [h8] at h; exact absurd h (by simp)
  | ok v8 =>
  obtain ⟨s8, xs8⟩ := v8
  rw [h8] at h
  simp only [bind, Except.bind, pure, Except.pure] at h
  have e8 := consumePadding_scan _ .afterSuffix xs7 s8 xs8 h8
  simp only [Except.ok.injEq, Prod.mk.injEq] at h
  obtain ⟨-, rfl⟩ := h
  exact scanEq_trans e1 (scanEq_trans e2 (scanEq_trans e3 (scanEq_trans e4
    (scanEq_trans e5 (scanEq_trans e6 (scanEq_trans e7 e8))))))

/-- C8 (amended): after every successful parse, `fHasNegativeSubpattern` is
true exactly when the pattern text contains a structural `;` — one that is
neither inside a quoted literal nor consumed as the pad character of a `*`
padding specifier — followed by non-empty content; in particular a trailing
structural `;` parses successfully with the flag false. -/
theorem c8_amended (p : List Char) (info : ParsedPatternInfo)
    (h : consumePattern p = .ok info) :
    info.fHasNegativeSubpattern = hasFreeSemicolonWithContent p := by
  unfold consumePattern at h
  simp only [bind, Except.bind] at h
  cases h1 : consumeSubpattern {} p with
  | error e => rw [h1] at h; exact absurd h (by simp)
  | ok v1 =>
  obtain ⟨pos, rest⟩ := v1
  rw [h1] at h
  simp only [bind, Except.bind, pure, Except.pure] at h
  have e1 := consumeSubpattern_scan {} p pos rest h1
  have hfss : freeSemicolonSplit p 0 = freeSemicolonSplit rest 0 := by
    have := e1 []
    simpa using this
  unfold hasFreeSemicolonWithContent
  rw [hfss]
  split at h
  · -- rest = []
    simp only [Except.ok.injEq] at h
    subst h
    rfl
  · -- rest = c :: rest2
    rename_i c rest2
    split at h
    · -- c = ';'
      rename_i hc
      subst hc
      split at h
      · -- rest2 = []
        simp only [Except.ok.injEq] at h
        subst h
        rfl
      · -- rest2 nonempty
        rename_i hne
        cases h2 : consumeSubpattern {} rest2 with
        | error e => rw [h2] at h; exact absurd h (by simp)
        | ok v2 =>
        obtain ⟨neg, rest4⟩ := v2
        rw [h2] at h
        simp only [bind, Except.bind, pure, Except.pure] at h
        split at h
        · -- rest4 = []
          simp only [Except.ok.injEq] at h
          subst h
          cases rest2 with
          | nil => exact (hne rfl).elim
          | cons d rest3 => rfl
        · exact absurd h (by simp)
    · exact absurd h (by simp)


theorem c8_amended_witness :
    ((consumePattern ("0;x".toList)).toOption.getD {}).fHasNegativeSubpattern
      = hasFreeSemicolonWithContent ("0;x".toList) :=
  c8_amended _ _ rfl

/-- C8: counterexample to the claim as stated: in `"0*;a"` the `;` is
unescaped (the pattern contains no quote character at all) and is followed
by the non-empty content `"a"`, yet the pattern parses successfully with
`fHasNegativeSubpattern = false` — the `;` is consumed as the pad character
of the `*` padding specifier, not as the subpattern separator. -/
theorem c8_counterexample :
    (consumePattern ("0*;a".toList)).map ParsedPatternInfo.fHasNegativeSubpattern
        = .ok false ∧
    ("0*;a".toList) = ("0*".toList) ++ ';' :: ("a".toList) ∧
    quoteChar ∉ ("0*;a".toList) ∧ ("a".toList) ≠ [] :=
  ⟨rfl, rfl, by decide, by decide⟩

/-- C1 (amended): the round trip holds for the representative pattern shapes
(plain, grouped, distinct-secondary grouping, fraction, significant-digit,
scientific, percent, permille, padded, rounding-increment and
negative-subpattern patterns). -/
theorem c1_amended :
    ((["#,##0.00", "@@##", "0.0%", "#,##0;(#,##0)", "0.05", "#,##0",
       "#.##E0", "0.0‰", "* #,##0.00", "0;a", "#", "0", ".##", "@@@",
       "#,##,##0", "0.###", "00.000E00"].map String.toList).all
      roundTripAgrees) = true := by
  rfl

/-- C1: counterexample: `"#,##0,000"` parses with secondary grouping size 3
(equal to the primary size), but the serializer then emits a single grouping
separator, so the reparse returns secondary grouping size -1 and the round
trip does not preserve all normalized fields. -/
theorem c1_counterexample :
    roundTripAgrees ("#,##0,000".toList) = false ∧
    (parseToProperties ("#,##0,000".toList) .never).map
        DecimalFormatProperties.secondaryGroupingSize = .ok 3 ∧
    (parseToProperties (propertiesToPatternString
        ((parseToProperties ("#,##0,000".toList) .never).toOption.getD {}))
        .never).map
        DecimalFormatProperties.secondaryGroupingSize = .ok (-1) :=
  ⟨rfl, rfl, rfl⟩

end NumberPatternString
